import Mathlib

/-! # UAVWare cooperative scheduler (`src/UAVWare/scheduler.c`)

A shallow embedding of the time-triggered scheduler: the task table
`sch_tasks_g`, the tick counter `tick_count_g`, the overrun latch
`scheduler_overrun_flag`, and the functions `sch_tick_handler`,
`sch_init_hz`, `sch_start`, `sch_dispatch_tasks` and `sch_add_task`.

Modelling conventions
* `uint32_t` values are natural numbers; every arithmetic step of the source
  that can wrap is written with an explicit `% 2 ^ 32`.
* A task handle (`void (*)()`) is the address of the function, a natural
  number; `SCH_NULL_PTR` is address `0`.
* The global variables are the fields of `Sched`; every function takes the
  state and returns the new state (and its return value, if it has one).
* Running a task, `(*sch_tasks_g[Task_id].pTask)()`, appends the pair
  `(Task_id, pTask)` to the log `calls`; task bodies do not touch the
  scheduler's variables.
* A function runs from entry to exit on the state it is given. The tick
  interrupt arriving between the steps of the dispatcher is the subject of
  the section on the interleaved machine (`Machine`, `step`, `runEvents`),
  whose main thread is shown to compute `sch_dispatch_tasks` when no
  interrupt arrives (`machine_runs_dispatch`).
-/

namespace UAVWare

/-! ## Data model -/

/-- Task descriptor `sTask_t`: the handle, the remaining delay and the period. -/
structure sTask where
  pTask : Nat
  Delay : Nat
  Period : Nat
deriving DecidableEq, Repr

/-- Modelled from the spec: the header `scheduler.h` is missing; the
"sentinel-empty handle" that marks an unoccupied slot is the null function
pointer, address `0`. -/
def SCH_NULL_PTR : Nat := 0

/-- Value of `EXIT_SUCCESS` in `<stdlib.h>`. -/
def EXIT_SUCCESS : Int := 0

/-- Value of `EXIT_FAILURE` in `<stdlib.h>`. -/
def EXIT_FAILURE : Int := 1

/-- The scheduler's variables.

* `sch_tasks_g` is the array `static sTask_t sch_tasks_g[SCH_MAX_TASKS]`;
* `tick_count_g` and `scheduler_overrun_flag` are the two volatile globals;
* `pastEnd` is the memory that follows the array, which is what the
  expression `sch_tasks_g[SCH_MAX_TASKS]` denotes; nothing is known about it;
* `calls` is the log of task invocations, oldest first. -/
structure Sched where
  sch_tasks_g : List sTask
  tick_count_g : Nat
  scheduler_overrun_flag : Bool
  pastEnd : sTask
  calls : List (Nat × Nat)
deriving DecidableEq, Repr

/-- The array is declared `sch_tasks_g[SCH_MAX_TASKS]`: the constant of the
missing header is the number of elements of the array. -/
def SCH_MAX_TASKS (s : Sched) : Nat := s.sch_tasks_g.length

/-- The value of the expression `sch_tasks_g[Task_id]`: the slot when the
index is inside the array, the memory behind the array otherwise. -/
def readSlot (s : Sched) (Task_id : Nat) : sTask :=
  s.sch_tasks_g.getD Task_id s.pastEnd

/-- A slot is occupied when its handle is not the null pointer. -/
def occupied (t : sTask) : Prop := t.pTask ≠ SCH_NULL_PTR

instance (t : sTask) : Decidable (occupied t) := by
  unfold occupied; exact inferInstance

/-- The table has at least one unoccupied slot. -/
def hasFreeSlot (s : Sched) : Prop :=
  ∃ i, i < SCH_MAX_TASKS s ∧ ¬ occupied (readSlot s i)

/-- All `SCH_MAX_TASKS` slots of the table are occupied. -/
def tableFull (s : Sched) : Prop :=
  ∀ i, i < SCH_MAX_TASKS s → occupied (readSlot s i)

/-! ## `sch_tick_handler`, `sch_init_hz`, `sch_start` -/

/-- The tick interrupt callback (lines 45-63). `SCH_TICK_COUNT_LIMIT` comes
from the missing header and is a parameter. -/
def sch_tick_handler (SCH_TICK_COUNT_LIMIT : Nat) (s : Sched) : Sched :=
  let s1 := { s with tick_count_g := (s.tick_count_g + 1) % 2 ^ 32 }
  if s1.tick_count_g > SCH_TICK_COUNT_LIMIT then
    { s1 with scheduler_overrun_flag := true }
  else s1

/-- Body of the loop of `sch_init_hz`: `sch_tasks_g[Task_id].pTask = SCH_NULL_PTR`. -/
def clearSlot (Task_id : Nat) (s : Sched) : Sched :=
  { s with sch_tasks_g :=
      s.sch_tasks_g.set Task_id { readSlot s Task_id with pTask := SCH_NULL_PTR } }

/-- The function `sch_init_hz` (lines 66-73): the loop over all slots. The two
calls into the timer driver do not touch the scheduler's variables. -/
def sch_init_hz (_TICKhz : Nat) (s : Sched) : Sched :=
  (List.range (SCH_MAX_TASKS s)).foldl (fun acc Task_id => clearSlot Task_id acc) s

/-- The function `sch_start` (lines 76-81). -/
def sch_start (s : Sched) : Sched :=
  { s with tick_count_g := 0, scheduler_overrun_flag := false }

/-! ## `sch_dispatch_tasks` -/

/-- Body of the `for` loop of the dispatcher (lines 137-144) for one index. -/
def dispatchSlot (Task_id : Nat) (s : Sched) : Sched :=
  let t := readSlot s Task_id
  if t.pTask ≠ SCH_NULL_PTR then
    let d := (t.Delay + 2 ^ 32 - 1) % 2 ^ 32
    if d = 0 then
      { s with
        sch_tasks_g := s.sch_tasks_g.set Task_id { t with Delay := t.Period }
        calls := s.calls ++ [(Task_id, t.pTask)] }
    else
      { s with sch_tasks_g := s.sch_tasks_g.set Task_id { t with Delay := d } }
  else s

/-- One drain pass: the `for` loop over the task array (lines 135-145). -/
def dispatchPass (s : Sched) : Sched :=
  (List.range (SCH_MAX_TASKS s)).foldl (fun acc Task_id => dispatchSlot Task_id acc) s

/-- The `while ( update_required )` loop (lines 130-154). `update_required`
is always the outcome of the test `tick_count_g > 0` made just before, so the
loop is written over that test. -/
def dispatchWhile (s : Sched) : Sched :=
  if _h : s.tick_count_g > 0 then
    let s1 := dispatchPass s
    dispatchWhile { s1 with tick_count_g := (s1.tick_count_g + 2 ^ 32 - 1) % 2 ^ 32 }
  else s
termination_by s.tick_count_g
decreasing_by
  have slot : ∀ (i : Nat) (a : Sched), (dispatchSlot i a).tick_count_g = a.tick_count_g := by
    intro i a
    unfold dispatchSlot
    dsimp only
    split_ifs <;> rfl
  have loop : ∀ (l : List Nat) (a : Sched),
      (l.foldl (fun acc Task_id => dispatchSlot Task_id acc) a).tick_count_g
        = a.tick_count_g := by
    intro l
    induction l with
    | nil => intro a; rfl
    | cons i l ih => intro a; rw [List.foldl_cons, ih, slot]
  have pass : (dispatchPass s).tick_count_g = s.tick_count_g := loop _ s
  simp_wf
  omega

/-- The function `sch_dispatch_tasks` (lines 122-161): the return value and
the new state. -/
def sch_dispatch_tasks (s : Sched) : Int × Sched :=
  let s1 := dispatchWhile s
  (if s1.scheduler_overrun_flag then 1 else 0, s1)

/-! ## `sch_add_task` -/

/-- The `while` loop that looks for a gap (lines 209-212). The handle is read
before the index is compared with `SCH_MAX_TASKS`, as in the source. -/
def scanGap (s : Sched) (Task_id : Nat) : Nat :=
  if _h : (readSlot s Task_id).pTask ≠ SCH_NULL_PTR ∧ Task_id < SCH_MAX_TASKS s then
    scanGap s (Task_id + 1)
  else Task_id
termination_by SCH_MAX_TASKS s - Task_id
decreasing_by
  simp_wf
  omega

/-- The function `sch_add_task` (lines 202-234): the return value and the new
state. -/
def sch_add_task (pTask DELAY PERIOD : Nat) (s : Sched) : Int × Sched :=
  let Task_id := scanGap s 0
  if Task_id = SCH_MAX_TASKS s then
    (EXIT_FAILURE, s)
  else if PERIOD = 0 then
    (EXIT_FAILURE, s)
  else
    let t : sTask := { pTask := pTask, Delay := (DELAY + 1) % 2 ^ 32, Period := PERIOD }
    (EXIT_SUCCESS, { s with sch_tasks_g := s.sch_tasks_g.set Task_id t })

/-! ## Sequences of calls -/

/-- The arguments of one `sch_add_task` call. -/
structure Req where
  pTask : Nat
  DELAY : Nat
  PERIOD : Nat
deriving DecidableEq, Repr

/-- The descriptor that lines 228-231 store for a request. -/
def Req.desc (r : Req) : sTask :=
  ⟨r.pTask, (r.DELAY + 1) % 2 ^ 32, r.PERIOD⟩

/-- The state after the calls `sch_add_task` of a list of requests, made one
after the other (return values dropped). -/
def addTasks (reqs : List Req) (s : Sched) : Sched :=
  reqs.foldl (fun acc r => (sch_add_task r.pTask r.DELAY r.PERIOD acc).2) s

/-! ## Vocabulary for the dispatcher -/

/-- A slot is due on a drain pass when it is occupied and its delay reaches
zero on the `uint32_t` pre-decrement of line 138. -/
def due (t : sTask) : Prop :=
  occupied t ∧ (t.Delay + 2 ^ 32 - 1) % 2 ^ 32 = 0

instance (t : sTask) : Decidable (due t) := by
  unfold due; exact inferInstance

/-- What one drain pass does to the content of one slot (lines 137-144). -/
def stepTask (t : sTask) : sTask :=
  if t.pTask ≠ SCH_NULL_PTR then
    if (t.Delay + 2 ^ 32 - 1) % 2 ^ 32 = 0 then { t with Delay := t.Period }
    else { t with Delay := (t.Delay + 2 ^ 32 - 1) % 2 ^ 32 }
  else t

/-- The invocations that a run from `s` to `s'` appended to the log. -/
def newCalls (s s' : Sched) : List (Nat × Nat) :=
  s'.calls.drop s.calls.length

/-- The number of invocations of slot `k` in a piece of the log. -/
def invocations (k : Nat) (log : List (Nat × Nat)) : Nat :=
  (log.map Prod.fst).count k

/-- One round of the host's main loop: `n` tick interrupts arrive, then
`sch_dispatch_tasks` is called once. -/
def tickThenDispatch (SCH_TICK_COUNT_LIMIT : Nat) (s : Sched) (n : Nat) : Sched :=
  (sch_dispatch_tasks ((sch_tick_handler SCH_TICK_COUNT_LIMIT)^[n] s)).2

/-- Several rounds of the main loop, with the given numbers of ticks. -/
def mainLoop (SCH_TICK_COUNT_LIMIT : Nat) (ns : List Nat) (s : Sched) : Sched :=
  ns.foldl (tickThenDispatch SCH_TICK_COUNT_LIMIT) s

/-- The delay of a task registered with `(DELAY, PERIOD) = (D, P)` after `m`
drain passes, in closed form. -/
def delayAfter (D P m : Nat) : Nat :=
  if m ≤ D then (D + 1 - m) % 2 ^ 32 else P - (m - D - 1) % P

/-- The number of invocations of slot `k` during the first `n` drain passes
that follow state `s`. -/
def firedAfter (s : Sched) (k n : Nat) : Nat :=
  invocations k (newCalls s (dispatchPass^[n] s))

/-- The example of the specification: on the table cleared by `sch_init_hz`,
task `A` is registered with `sch_add_task(A, 1, 10)` and then task `B` with
`sch_add_task(B, 0, 5)`. -/
def specExample (TICKhz : Nat) (s0 : Sched) (A B : Nat) : Sched :=
  addTasks [⟨A, 1, 10⟩, ⟨B, 0, 5⟩] (sch_init_hz TICKhz s0)

/-! ## Sequences of operations, invariants -/

/-- One call into the scheduler, or one drain pass of the dispatcher. -/
inductive Op where
  | add (pTask DELAY PERIOD : Nat)
  | start
  | tick
  | pass
  | dispatch
deriving DecidableEq, Repr

/-- The state after one operation: a call of `sch_add_task`, `sch_start`,
`sch_tick_handler` or `sch_dispatch_tasks`, or one drain pass over the table
(lines 135-145). -/
def runOp (SCH_TICK_COUNT_LIMIT : Nat) : Op → Sched → Sched
  | .add pTask DELAY PERIOD, s => (sch_add_task pTask DELAY PERIOD s).2
  | .start, s => sch_start s
  | .tick, s => sch_tick_handler SCH_TICK_COUNT_LIMIT s
  | .pass, s => dispatchPass s
  | .dispatch, s => (sch_dispatch_tasks s).2

/-- The state after a list of operations, made one after the other. -/
def runOps (SCH_TICK_COUNT_LIMIT : Nat) (ops : List Op) (s : Sched) : Sched :=
  ops.foldl (fun acc op => runOp SCH_TICK_COUNT_LIMIT op acc) s

/-- Every occupied slot has a period greater than zero. -/
def periodsPositive (s : Sched) : Prop :=
  ∀ i, i < SCH_MAX_TASKS s → occupied (readSlot s i) → 0 < (readSlot s i).Period

/-- A registration whose initial delay is below `2 ^ 32 - 1` and whose period
is a `uint32_t` value; the other operations carry no condition. -/
def Op.delayBelowMax : Op → Prop
  | .add _ DELAY PERIOD => DELAY < 2 ^ 32 - 1 ∧ PERIOD < 2 ^ 32
  | _ => True

/-- Every occupied slot has a delay of at least 1, so that the `uint32_t`
pre-decrement of line 138 is the subtraction of one. -/
def delaysArmed (s : Sched) : Prop :=
  ∀ i, i < SCH_MAX_TASKS s → occupied (readSlot s i) →
    1 ≤ (readSlot s i).Delay ∧
      ((readSlot s i).Delay + 2 ^ 32 - 1) % 2 ^ 32 + 1 = (readSlot s i).Delay

/-- The number of occupied slots of the table. -/
def occupiedCount (s : Sched) : Nat :=
  (List.range (SCH_MAX_TASKS s)).countP (fun i => decide (occupied (readSlot s i)))

/-- The array indices whose `pTask` field the loop of lines 209-212 reads, in
order: the left operand of `&&` reads `sch_tasks_g[Task_id]` on every test. -/
def scanGapReads (s : Sched) (Task_id : Nat) : List Nat :=
  if _h : (readSlot s Task_id).pTask ≠ SCH_NULL_PTR ∧ Task_id < SCH_MAX_TASKS s then
    Task_id :: scanGapReads s (Task_id + 1)
  else [Task_id]
termination_by SCH_MAX_TASKS s - Task_id
decreasing_by
  simp_wf
  omega

/-! ## The tick interrupt interleaved with the dispatcher

The main thread calls `sch_dispatch_tasks` again and again. Its steps are the
two interrupt-masked sections (lines 126-128 and 147-150), the body of the
`for` loop for one index, and the final `return`. The tick interrupt can
arrive between any two of these steps; it runs `sch_tick_handler` to
completion. An interrupt that arrives inside the `for` body or inside a task
touches only the tick counter and the overrun latch, which that code does not
use, so it has the effect of an interrupt just before or after the step. -/

/-- Where the main thread stands: outside `sch_dispatch_tasks` (next: the
entry section, lines 126-128), inside the `while` loop with the `for` loop at
index `Task_id` (next: the loop body, or lines 147-150 when the `for` loop is
over), or behind the loop (next: `return scheduler_overrun_flag`). -/
inductive Pc where
  | idle
  | body (Task_id : Nat)
  | leave
deriving DecidableEq, Repr

/-- What happens next: the tick interrupt, or a step of the main thread. -/
inductive Event where
  | irq
  | main
deriving DecidableEq, Repr

/-- The scheduler's variables, the position of the main thread, the number
of `tick_count_g++` and of `tick_count_g--` executed so far, and the values
that the calls of `sch_dispatch_tasks` have returned so far. -/
structure Machine where
  s : Sched
  pc : Pc
  incs : Nat
  decs : Nat
  rets : List Int
deriving DecidableEq, Repr

/-- The main thread outside `sch_dispatch_tasks`, with the counts at zero. -/
def Machine.boot (s : Sched) : Machine :=
  { s := s, pc := Pc.idle, incs := 0, decs := 0, rets := [] }

/-- One step of the main thread. -/
def mainStep (m : Machine) : Machine :=
  match m.pc with
  | Pc.idle =>
    if m.s.tick_count_g > 0 then { m with pc := Pc.body 0 } else { m with pc := Pc.leave }
  | Pc.body Task_id =>
    if Task_id < SCH_MAX_TASKS m.s then
      { m with s := dispatchSlot Task_id m.s, pc := Pc.body (Task_id + 1) }
    else
      let s1 := { m.s with tick_count_g := (m.s.tick_count_g + 2 ^ 32 - 1) % 2 ^ 32 }
      { m with
        s := s1
        decs := m.decs + 1
        pc := if s1.tick_count_g > 0 then Pc.body 0 else Pc.leave }
  | Pc.leave =>
    { m with
      rets := m.rets ++ [if m.s.scheduler_overrun_flag then 1 else 0]
      pc := Pc.idle }

/-- One event. -/
def step (SCH_TICK_COUNT_LIMIT : Nat) : Event → Machine → Machine
  | Event.irq, m => { m with s := sch_tick_handler SCH_TICK_COUNT_LIMIT m.s, incs := m.incs + 1 }
  | Event.main, m => mainStep m

/-- A sequence of events. -/
def runEvents (SCH_TICK_COUNT_LIMIT : Nat) (es : List Event) (m : Machine) : Machine :=
  es.foldl (fun acc e => step SCH_TICK_COUNT_LIMIT e acc) m

/-- The tick counter does not wrap around during the events: every tick
interrupt finds it below `2 ^ 32 - 1`. -/
def noWrap (SCH_TICK_COUNT_LIMIT : Nat) : List Event → Machine → Bool
  | [], _ => true
  | Event.irq :: es, m =>
    decide (m.s.tick_count_g < 2 ^ 32 - 1) &&
      noWrap SCH_TICK_COUNT_LIMIT es (step SCH_TICK_COUNT_LIMIT Event.irq m)
  | Event.main :: es, m =>
    noWrap SCH_TICK_COUNT_LIMIT es (step SCH_TICK_COUNT_LIMIT Event.main m)

/-- The conservation invariant: the tick counter holds the increments that
no decrement has matched yet, it is a `uint32_t` value, and it is at least 1
whenever the main thread is inside the loop. -/
def conserved (m : Machine) : Prop :=
  m.s.tick_count_g + m.decs = m.incs ∧ m.s.tick_count_g < 2 ^ 32 ∧
    ∀ i, m.pc = Pc.body i → 1 ≤ m.s.tick_count_g

/-- The latch invariant: the tick counter is a `uint32_t` value; whenever it
exceeds the limit the latch is set; and when the main thread is inside the
loop with the counter at zero (it has wrapped around), the latch is set unless
the limit lies above every `uint32_t` value that can exceed something. -/
def latched (SCH_TICK_COUNT_LIMIT : Nat) (m : Machine) : Prop :=
  m.s.tick_count_g < 2 ^ 32 ∧
    (m.s.tick_count_g > SCH_TICK_COUNT_LIMIT → m.s.scheduler_overrun_flag = true) ∧
    ∀ i, m.pc = Pc.body i → m.s.tick_count_g = 0 →
      m.s.scheduler_overrun_flag = true ∨ 2 ^ 32 - 1 ≤ SCH_TICK_COUNT_LIMIT

/-! ## Concrete states used in the examples -/

/-- A table of three slots: slot 0 occupied, slots 1 and 2 unoccupied. -/
def tbl3 : Sched :=
  { sch_tasks_g := [⟨5, 3, 4⟩, ⟨0, 9, 9⟩, ⟨0, 0, 0⟩]
    tick_count_g := 0
    scheduler_overrun_flag := false
    pastEnd := ⟨0, 0, 0⟩
    calls := [] }

/-- Two registrations with non-null handles. -/
def reqs2 : List Req := [⟨7, 2, 3⟩, ⟨8, 0, 5⟩]

/-- The table `tbl3` after `sch_add_task(7, 2 ^ 32 - 1, 3)`: slot 1 is occupied
with a delay of 0. -/
def zeroDelayTbl : Sched :=
  { sch_tasks_g := [⟨5, 3, 4⟩, ⟨7, 0, 3⟩, ⟨0, 0, 0⟩]
    tick_count_g := 0
    scheduler_overrun_flag := false
    pastEnd := ⟨0, 0, 0⟩
    calls := [] }

/-- A table of two slots, both occupied. -/
def full2 : Sched :=
  { sch_tasks_g := [⟨5, 3, 4⟩, ⟨6, 1, 2⟩]
    tick_count_g := 0
    scheduler_overrun_flag := false
    pastEnd := ⟨0, 0, 0⟩
    calls := [] }

/-- A used scheduler with four slots (two of them occupied), a backlog of
ticks, the overrun latch set and a non-empty log. -/
def tbl4 : Sched :=
  { sch_tasks_g := [⟨9, 1, 1⟩, ⟨0, 7, 0⟩, ⟨8, 0, 3⟩, ⟨0, 0, 0⟩]
    tick_count_g := 5
    scheduler_overrun_flag := true
    pastEnd := ⟨1, 0, 0⟩
    calls := [(2, 8)] }

/-- A registration, a drain pass, a second registration and a dispatcher call. -/
def opsEx : List Op := [Op.add 7 2 3, Op.pass, Op.add 8 0 5, Op.tick, Op.dispatch]

/-- One tick, the entry of the dispatcher, `2 ^ 32` ticks while the dispatcher
is in its loop, and the rest of the dispatcher call on a table of two slots. -/
def wrapEvents : List Event :=
  [Event.irq, Event.main] ++ List.replicate (2 ^ 32) Event.irq
    ++ [Event.main, Event.main, Event.main, Event.main]

/-- A tick, two steps of the main thread, two ticks and four more steps. -/
def fewEvents : List Event :=
  [Event.irq, Event.main, Event.main, Event.irq, Event.irq, Event.main, Event.main,
    Event.main, Event.main]

/-! ## Auxiliary lemmas: the free-slot scan and `sch_add_task` -/

theorem getD_set_same (l : List sTask) (k : Nat) (t d : sTask) (h : k < l.length) :
    (l.set k t).getD k d = t := by
  simp [List.getElem?_set, h]

theorem getD_set_other (l : List sTask) (k j : Nat) (t d : sTask) (h : k ≠ j) :
    (l.set k t).getD j d = l.getD j d := by
  simp [List.getElem?_set_ne h]

theorem scanGap_unfold (s : Sched) (i : Nat) :
    scanGap s i =
      if (readSlot s i).pTask ≠ SCH_NULL_PTR ∧ i < SCH_MAX_TASKS s then scanGap s (i + 1)
      else i := by
  rw [scanGap]
  split_ifs <;> rfl

theorem scanGap_spec (s : Sched) : ∀ (d i : Nat), SCH_MAX_TASKS s - i = d →
    i ≤ SCH_MAX_TASKS s →
    i ≤ scanGap s i ∧ scanGap s i ≤ SCH_MAX_TASKS s ∧
    (∀ j, i ≤ j → j < scanGap s i → (readSlot s j).pTask ≠ SCH_NULL_PTR) ∧
    (scanGap s i < SCH_MAX_TASKS s → (readSlot s (scanGap s i)).pTask = SCH_NULL_PTR) := by
  intro d
  induction d with
  | zero =>
    intro i hd hi
    have hi2 : ¬ i < SCH_MAX_TASKS s := by omega
    rw [scanGap_unfold]
    rw [if_neg (fun h => hi2 h.2)]
    exact ⟨le_refl _, hi, fun j h1 h2 => absurd h2 (by omega), fun h => absurd h hi2⟩
  | succ d ih =>
    intro i hd hi
    rw [scanGap_unfold]
    by_cases hc : (readSlot s i).pTask ≠ SCH_NULL_PTR ∧ i < SCH_MAX_TASKS s
    · rw [if_pos hc]
      obtain ⟨h1, h2, h3, h4⟩ := ih (i + 1) (by omega) (by omega)
      refine ⟨by omega, h2, ?_, h4⟩
      intro j hj1 hj2
      by_cases hji : j = i
      · subst hji; exact hc.1
      · exact h3 j (by omega) hj2
    · rw [if_neg hc]
      refine ⟨le_refl _, hi, fun j h1 h2 => absurd h2 (by omega), ?_⟩
      intro hlt
      by_contra hne
      exact hc ⟨hne, hlt⟩

/-- The scan from index 0 stops at the lowest unoccupied slot, or at
`SCH_MAX_TASKS` when there is none. -/
theorem scanGap_zero (s : Sched) :
    scanGap s 0 ≤ SCH_MAX_TASKS s ∧
    (∀ j, j < scanGap s 0 → occupied (readSlot s j)) ∧
    (scanGap s 0 < SCH_MAX_TASKS s → ¬ occupied (readSlot s (scanGap s 0))) := by
  obtain ⟨_, h2, h3, h4⟩ := scanGap_spec s _ 0 rfl (Nat.zero_le _)
  exact ⟨h2, fun j hj => h3 j (Nat.zero_le _) hj, fun h hocc => hocc (h4 h)⟩

theorem scanGap_eq_max_iff (s : Sched) :
    scanGap s 0 = SCH_MAX_TASKS s ↔ tableFull s := by
  obtain ⟨h1, h2, h3⟩ := scanGap_zero s
  constructor
  · intro h j hj
    exact h2 j (by omega)
  · intro hfull
    by_contra hne
    have hlt : scanGap s 0 < SCH_MAX_TASKS s := by omega
    exact h3 hlt (hfull _ hlt)

theorem sch_add_task_full (pTask DELAY PERIOD : Nat) (s : Sched)
    (h : scanGap s 0 = SCH_MAX_TASKS s) :
    sch_add_task pTask DELAY PERIOD s = (EXIT_FAILURE, s) := by
  simp [sch_add_task, h]

theorem sch_add_task_zero (pTask DELAY : Nat) (s : Sched) :
    sch_add_task pTask DELAY 0 s = (EXIT_FAILURE, s) := by
  simp [sch_add_task]

theorem sch_add_task_ok (pTask DELAY PERIOD : Nat) (s : Sched)
    (h : scanGap s 0 ≠ SCH_MAX_TASKS s) (hp : PERIOD ≠ 0) :
    sch_add_task pTask DELAY PERIOD s =
      (EXIT_SUCCESS,
        { s with
          sch_tasks_g :=
            s.sch_tasks_g.set (scanGap s 0) ⟨pTask, (DELAY + 1) % 2 ^ 32, PERIOD⟩ }) := by
  simp [sch_add_task, h, hp]

theorem sch_add_task_ok_iff (pTask DELAY PERIOD : Nat) (s : Sched) :
    (sch_add_task pTask DELAY PERIOD s).1 = EXIT_SUCCESS ↔
      scanGap s 0 ≠ SCH_MAX_TASKS s ∧ PERIOD ≠ 0 := by
  by_cases h : scanGap s 0 = SCH_MAX_TASKS s
  · simp [sch_add_task_full _ _ _ s h, h, EXIT_SUCCESS, EXIT_FAILURE]
  · by_cases hp : PERIOD = 0
    · subst hp
      simp [sch_add_task_zero, EXIT_SUCCESS, EXIT_FAILURE]
    · simp [sch_add_task_ok _ _ _ s h hp, h, hp]

theorem sch_add_task_ret (pTask DELAY PERIOD : Nat) (s : Sched) :
    (sch_add_task pTask DELAY PERIOD s).1 = EXIT_SUCCESS ∨
    (sch_add_task pTask DELAY PERIOD s).1 = EXIT_FAILURE := by
  by_cases h : scanGap s 0 = SCH_MAX_TASKS s
  · right; rw [sch_add_task_full _ _ _ s h]
  · by_cases hp : PERIOD = 0
    · right; subst hp; rw [sch_add_task_zero]
    · left; rw [sch_add_task_ok _ _ _ s h hp]

theorem sch_add_task_fail_iff (pTask DELAY PERIOD : Nat) (s : Sched) :
    (sch_add_task pTask DELAY PERIOD s).1 = EXIT_FAILURE ↔
      (tableFull s ∨ PERIOD = 0) := by
  rw [← scanGap_eq_max_iff]
  by_cases h : scanGap s 0 = SCH_MAX_TASKS s
  · simp [sch_add_task_full _ _ _ s h, h]
  · by_cases hp : PERIOD = 0
    · subst hp
      simp [sch_add_task_zero]
    · simp [sch_add_task_ok _ _ _ s h hp, h, hp, EXIT_SUCCESS, EXIT_FAILURE]

/-! ## Auxiliary lemmas: loops over the task array, `sch_init_hz` -/

theorem foldl_keeps {α : Type} (P : Sched → α) (f : Nat → Sched → Sched)
    (h : ∀ i s, P (f i s) = P s) :
    ∀ (l : List Nat) (s : Sched), P (l.foldl (fun acc i => f i acc) s) = P s := by
  intro l
  induction l with
  | nil => intro s; rfl
  | cons i l ih => intro s; rw [List.foldl_cons, ih, h]

/-- A loop `for ( Task_id = 0; Task_id < n; Task_id++ )` whose body rewrites
slot `Task_id` with `g` of its content rewrites the first `n` slots. -/
theorem foldl_range_slots (f : Nat → Sched → Sched) (g : sTask → sTask)
    (hlen : ∀ i s, SCH_MAX_TASKS (f i s) = SCH_MAX_TASKS s)
    (hsame : ∀ i s, i < SCH_MAX_TASKS s → readSlot (f i s) i = g (readSlot s i))
    (hother : ∀ i j s, j ≠ i → readSlot (f i s) j = readSlot s j) (s : Sched) :
    ∀ n, n ≤ SCH_MAX_TASKS s → ∀ j,
      readSlot ((List.range n).foldl (fun acc i => f i acc) s) j =
        if j < n then g (readSlot s j) else readSlot s j := by
  intro n
  induction n with
  | zero => intro _ j; simp
  | succ n ih =>
    intro hn j
    rw [List.range_succ, List.foldl_append]
    simp only [List.foldl_cons, List.foldl_nil]
    have hN : SCH_MAX_TASKS ((List.range n).foldl (fun acc i => f i acc) s)
        = SCH_MAX_TASKS s := foldl_keeps SCH_MAX_TASKS f hlen _ s
    by_cases hj : j = n
    · subst hj
      rw [hsame _ _ (by omega), ih (by omega)]
      simp
    · rw [hother _ _ _ hj, ih (by omega)]
      by_cases hlt : j < n
      · simp [hlt, Nat.lt_succ_of_lt hlt]
      · have : ¬ j < n + 1 := by omega
        simp [hlt, this]

theorem clearSlot_len (i : Nat) (s : Sched) :
    SCH_MAX_TASKS (clearSlot i s) = SCH_MAX_TASKS s := by
  simp [clearSlot, SCH_MAX_TASKS]

theorem clearSlot_same (i : Nat) (s : Sched) (h : i < SCH_MAX_TASKS s) :
    readSlot (clearSlot i s) i = { readSlot s i with pTask := SCH_NULL_PTR } :=
  getD_set_same _ _ _ _ h

theorem clearSlot_other (i j : Nat) (s : Sched) (h : j ≠ i) :
    readSlot (clearSlot i s) j = readSlot s j :=
  getD_set_other _ _ _ _ _ (Ne.symm h)

theorem sch_init_hz_len (hz : Nat) (s : Sched) :
    SCH_MAX_TASKS (sch_init_hz hz s) = SCH_MAX_TASKS s :=
  foldl_keeps SCH_MAX_TASKS clearSlot clearSlot_len _ s

theorem sch_init_hz_slot (hz : Nat) (s : Sched) (j : Nat) (hj : j < SCH_MAX_TASKS s) :
    readSlot (sch_init_hz hz s) j = { readSlot s j with pTask := SCH_NULL_PTR } := by
  unfold sch_init_hz
  rw [foldl_range_slots clearSlot (fun t => { t with pTask := SCH_NULL_PTR })
    clearSlot_len clearSlot_same clearSlot_other s _ (le_refl _) j, if_pos hj]

theorem sch_init_hz_empty (hz : Nat) (s : Sched) (j : Nat) (hj : j < SCH_MAX_TASKS s) :
    ¬ occupied (readSlot (sch_init_hz hz s) j) := by
  rw [sch_init_hz_slot hz s j hj]
  simp [occupied]

/-! ## Auxiliary lemmas: sequences of registrations -/

/-- The lowest unoccupied slot is unique: the scan stops at it. -/
theorem scanGap_eq_of_first_free (s : Sched) (k : Nat) (hk : k < SCH_MAX_TASKS s)
    (hfree : ¬ occupied (readSlot s k)) (hocc : ∀ j, j < k → occupied (readSlot s j)) :
    scanGap s 0 = k := by
  obtain ⟨h1, h2, h3⟩ := scanGap_zero s
  by_contra hne
  rcases Nat.lt_or_gt_of_ne hne with h | h
  · exact h3 (by omega) (hocc _ h)
  · exact hfree (h2 _ h)

theorem addTasks_snoc (reqs : List Req) (r : Req) (s : Sched) :
    addTasks (reqs ++ [r]) s
      = (sch_add_task r.pTask r.DELAY r.PERIOD (addTasks reqs s)).2 := by
  simp [addTasks, List.foldl_append]

theorem addTasks_take_succ (reqs : List Req) (s : Sched) (i : Nat) (hi : i < reqs.length) :
    addTasks (reqs.take (i + 1)) s
      = (sch_add_task reqs[i].pTask reqs[i].DELAY reqs[i].PERIOD
          (addTasks (reqs.take i) s)).2 := by
  rw [← List.take_concat_get reqs i hi, List.concat_eq_append, addTasks_snoc]

/-- Invariant of a run of successful registrations with non-null handles on
a table whose slots are all unoccupied at the start. -/
theorem addTasks_prefix_inv (reqs : List Req) (s : Sched)
    (hempty : ∀ j, j < SCH_MAX_TASKS s → ¬ occupied (readSlot s j))
    (hnn : ∀ r, r ∈ reqs → r.pTask ≠ SCH_NULL_PTR)
    (hok : ∀ i (hi : i < reqs.length),
      (sch_add_task reqs[i].pTask reqs[i].DELAY reqs[i].PERIOD
        (addTasks (reqs.take i) s)).1 = EXIT_SUCCESS) :
    ∀ i, i ≤ reqs.length →
      i ≤ SCH_MAX_TASKS s ∧
      SCH_MAX_TASKS (addTasks (reqs.take i) s) = SCH_MAX_TASKS s ∧
      (∀ j, j < SCH_MAX_TASKS s → (occupied (readSlot (addTasks (reqs.take i) s) j) ↔ j < i)) ∧
      (∀ j (hj : j < reqs.length), j < i →
        readSlot (addTasks (reqs.take i) s) j = reqs[j].desc) ∧
      (∀ j, i ≤ j → readSlot (addTasks (reqs.take i) s) j = readSlot s j) := by
  intro i
  induction i with
  | zero =>
    intro _
    refine ⟨Nat.zero_le _, by simp [addTasks], ?_, ?_, ?_⟩
    · intro j hj
      simp only [List.take_zero, addTasks, List.foldl_nil]
      constructor
      · intro h; exact absurd h (hempty j hj)
      · intro h; omega
    · intro j _ h; omega
    · intro j _; simp [addTasks]
  | succ i ih =>
    intro hi
    have hi' : i < reqs.length := by omega
    obtain ⟨h1, h2, h3, h4, h5⟩ := ih (by omega)
    have hcall := hok i hi'
    obtain ⟨hgap, hp⟩ := (sch_add_task_ok_iff _ _ _ _).1 hcall
    -- the previous state has a free slot, hence i < SCH_MAX_TASKS
    have hiN : i < SCH_MAX_TASKS s := by
      by_contra hge
      apply hgap
      rw [scanGap_eq_max_iff]
      intro j hj
      rw [h2] at hj
      exact (h3 j hj).2 (by omega)
    have hscan : scanGap (addTasks (reqs.take i) s) 0 = i := by
      apply scanGap_eq_of_first_free
      · rw [h2]; exact hiN
      · intro h; exact absurd ((h3 i hiN).1 h) (by omega)
      · intro j hj; exact (h3 j (by omega)).2 hj
    have hstate := addTasks_take_succ reqs s i hi'
    rw [sch_add_task_ok _ _ _ _ hgap hp, hscan] at hstate
    have hsame : readSlot (addTasks (reqs.take (i + 1)) s) i = reqs[i].desc := by
      rw [hstate]
      exact getD_set_same _ _ _ _ (by rw [← SCH_MAX_TASKS, h2]; exact hiN)
    have hoth : ∀ j, j ≠ i → readSlot (addTasks (reqs.take (i + 1)) s) j
        = readSlot (addTasks (reqs.take i) s) j := by
      intro j hj
      rw [hstate]
      exact getD_set_other _ _ _ _ _ (Ne.symm hj)
    refine ⟨hiN, ?_, ?_, ?_, ?_⟩
    · rw [hstate]; simp only [SCH_MAX_TASKS, List.length_set]; exact h2
    · intro j hj
      by_cases hji : j = i
      · subst hji
        rw [hsame]
        constructor
        · intro _; omega
        · intro _; exact hnn _ (List.getElem_mem _)
      · rw [hoth j hji, h3 j hj]
        omega
    · intro j hj hlt
      by_cases hji : j = i
      · subst hji; exact hsame
      · rw [hoth j hji]; exact h4 j hj (by omega)
    · intro j hj
      rw [hoth j (by omega)]
      exact h5 j (by omega)

/-! ## Auxiliary lemmas: one drain pass -/

theorem dispatchSlot_len (i : Nat) (s : Sched) :
    SCH_MAX_TASKS (dispatchSlot i s) = SCH_MAX_TASKS s := by
  unfold dispatchSlot
  dsimp only
  split_ifs <;> simp [SCH_MAX_TASKS]

theorem dispatchSlot_same (i : Nat) (s : Sched) (h : i < SCH_MAX_TASKS s) :
    readSlot (dispatchSlot i s) i = stepTask (readSlot s i) := by
  unfold dispatchSlot stepTask
  dsimp only
  split_ifs
  · exact getD_set_same _ _ _ _ h
  · exact getD_set_same _ _ _ _ h
  · rfl

theorem dispatchSlot_other (i j : Nat) (s : Sched) (h : j ≠ i) :
    readSlot (dispatchSlot i s) j = readSlot s j := by
  unfold dispatchSlot
  dsimp only
  split_ifs
  · exact getD_set_other _ _ _ _ _ (Ne.symm h)
  · exact getD_set_other _ _ _ _ _ (Ne.symm h)
  · rfl

theorem dispatchSlot_tick (i : Nat) (s : Sched) :
    (dispatchSlot i s).tick_count_g = s.tick_count_g := by
  unfold dispatchSlot
  dsimp only
  split_ifs <;> rfl

theorem dispatchSlot_flag (i : Nat) (s : Sched) :
    (dispatchSlot i s).scheduler_overrun_flag = s.scheduler_overrun_flag := by
  unfold dispatchSlot
  dsimp only
  split_ifs <;> rfl

theorem dispatchSlot_pastEnd (i : Nat) (s : Sched) :
    (dispatchSlot i s).pastEnd = s.pastEnd := by
  unfold dispatchSlot
  dsimp only
  split_ifs <;> rfl

theorem dispatchSlot_calls (i : Nat) (s : Sched) :
    (dispatchSlot i s).calls =
      s.calls ++ (if due (readSlot s i) then [(i, (readSlot s i).pTask)] else []) := by
  unfold dispatchSlot due occupied
  dsimp only
  split_ifs with h1 h2 h3 h4 <;> simp_all

theorem dispatchPass_len (s : Sched) : SCH_MAX_TASKS (dispatchPass s) = SCH_MAX_TASKS s :=
  foldl_keeps SCH_MAX_TASKS dispatchSlot dispatchSlot_len _ s

theorem dispatchPass_tick (s : Sched) : (dispatchPass s).tick_count_g = s.tick_count_g :=
  foldl_keeps (fun s => s.tick_count_g) dispatchSlot dispatchSlot_tick _ s

theorem dispatchPass_flag (s : Sched) :
    (dispatchPass s).scheduler_overrun_flag = s.scheduler_overrun_flag :=
  foldl_keeps (fun s => s.scheduler_overrun_flag) dispatchSlot dispatchSlot_flag _ s

theorem dispatchPass_pastEnd (s : Sched) : (dispatchPass s).pastEnd = s.pastEnd :=
  foldl_keeps (fun s => s.pastEnd) dispatchSlot dispatchSlot_pastEnd _ s

theorem dispatchPass_slot (s : Sched) (j : Nat) (hj : j < SCH_MAX_TASKS s) :
    readSlot (dispatchPass s) j = stepTask (readSlot s j) := by
  unfold dispatchPass
  rw [foldl_range_slots dispatchSlot stepTask dispatchSlot_len dispatchSlot_same
    dispatchSlot_other s _ (le_refl _) j, if_pos hj]

theorem dispatchPass_slot_beyond (s : Sched) (j : Nat) (hj : SCH_MAX_TASKS s ≤ j) :
    readSlot (dispatchPass s) j = readSlot s j := by
  unfold dispatchPass
  rw [foldl_range_slots dispatchSlot stepTask dispatchSlot_len dispatchSlot_same
    dispatchSlot_other s _ (le_refl _) j, if_neg (by omega)]

/-- The log after the first `n` iterations of the `for` loop. -/
theorem dispatch_range_calls (s : Sched) : ∀ n, n ≤ SCH_MAX_TASKS s →
    ((List.range n).foldl (fun acc i => dispatchSlot i acc) s).calls =
      s.calls ++ ((List.range n).filter (fun i => due (readSlot s i))).map
        (fun i => (i, (readSlot s i).pTask)) := by
  intro n
  induction n with
  | zero => intro _; simp
  | succ n ih =>
    intro hn
    rw [List.range_succ, List.foldl_append]
    simp only [List.foldl_cons, List.foldl_nil]
    have hslot : readSlot ((List.range n).foldl (fun acc i => dispatchSlot i acc) s) n
        = readSlot s n := by
      rw [foldl_range_slots dispatchSlot stepTask dispatchSlot_len dispatchSlot_same
        dispatchSlot_other s n (by omega) n, if_neg (lt_irrefl n)]
    rw [dispatchSlot_calls, hslot, ih (by omega), List.filter_append, List.map_append,
      List.append_assoc]
    congr 1
    by_cases hd : due (readSlot s n)
    · simp [hd]
    · simp [hd]

theorem dispatchPass_calls (s : Sched) :
    (dispatchPass s).calls =
      s.calls ++ ((List.range (SCH_MAX_TASKS s)).filter (fun i => due (readSlot s i))).map
        (fun i => (i, (readSlot s i).pTask)) :=
  dispatch_range_calls s _ (le_refl _)

theorem newCalls_dispatchPass (s : Sched) :
    newCalls s (dispatchPass s) =
      ((List.range (SCH_MAX_TASKS s)).filter (fun i => due (readSlot s i))).map
        (fun i => (i, (readSlot s i).pTask)) := by
  unfold newCalls
  rw [dispatchPass_calls, List.drop_left]

theorem newCalls_dispatchPass_fst (s : Sched) :
    (newCalls s (dispatchPass s)).map Prod.fst =
      (List.range (SCH_MAX_TASKS s)).filter (fun i => due (readSlot s i)) := by
  rw [newCalls_dispatchPass, List.map_map]
  have : (Prod.fst ∘ fun i => (i, (readSlot s i).pTask)) = id := by
    funext i; rfl
  rw [this, List.map_id]

theorem stepTask_due (t : sTask) (h : due t) : stepTask t = { t with Delay := t.Period } := by
  unfold stepTask
  rw [if_pos (show t.pTask ≠ SCH_NULL_PTR from h.1), if_pos h.2]

theorem stepTask_waiting (t : sTask) (h1 : occupied t) (h2 : ¬ due t) :
    stepTask t = { t with Delay := (t.Delay + 2 ^ 32 - 1) % 2 ^ 32 } := by
  unfold stepTask
  rw [if_pos (show t.pTask ≠ SCH_NULL_PTR from h1), if_neg (fun h => h2 ⟨h1, h⟩)]

theorem stepTask_free (t : sTask) (h : ¬ occupied t) : stepTask t = t := by
  unfold stepTask
  rw [if_neg (show ¬ t.pTask ≠ SCH_NULL_PTR from h)]

theorem stepTask_pTask (t : sTask) : (stepTask t).pTask = t.pTask := by
  unfold stepTask
  split_ifs <;> rfl

theorem stepTask_Period (t : sTask) : (stepTask t).Period = t.Period := by
  unfold stepTask
  split_ifs <;> rfl

/-! ## Auxiliary lemmas: the drain loop -/

theorem dispatchSlot_setTick (i x : Nat) (s : Sched) :
    dispatchSlot i { s with tick_count_g := x }
      = { dispatchSlot i s with tick_count_g := x } := by
  unfold dispatchSlot readSlot
  dsimp only
  split_ifs <;> rfl

theorem dispatch_list_setTick (x : Nat) : ∀ (l : List Nat) (s : Sched),
    l.foldl (fun acc i => dispatchSlot i acc) { s with tick_count_g := x }
      = { l.foldl (fun acc i => dispatchSlot i acc) s with tick_count_g := x } := by
  intro l
  induction l with
  | nil => intro s; rfl
  | cons i l ih =>
    intro s
    rw [List.foldl_cons, List.foldl_cons, dispatchSlot_setTick, ih]

theorem dispatchPass_setTick (x : Nat) (s : Sched) :
    dispatchPass { s with tick_count_g := x } = { dispatchPass s with tick_count_g := x } := by
  unfold dispatchPass
  exact dispatch_list_setTick x _ s

theorem dispatchPass_iterate_setTick (x : Nat) : ∀ (n : Nat) (s : Sched),
    dispatchPass^[n] { s with tick_count_g := x }
      = { dispatchPass^[n] s with tick_count_g := x } := by
  intro n
  induction n with
  | zero => intro s; rfl
  | succ n ih =>
    intro s
    rw [Function.iterate_succ_apply, Function.iterate_succ_apply, dispatchPass_setTick, ih]

theorem dispatchWhile_unfold (s : Sched) :
    dispatchWhile s =
      if s.tick_count_g > 0 then
        dispatchWhile { dispatchPass s with
          tick_count_g := ((dispatchPass s).tick_count_g + 2 ^ 32 - 1) % 2 ^ 32 }
      else s := by
  rw [dispatchWhile]
  split_ifs <;> rfl

/-- With a backlog of `n` ticks the loop makes `n` drain passes and leaves the
counter at zero. -/
theorem dispatchWhile_eq : ∀ (n : Nat) (s : Sched), s.tick_count_g = n → n < 2 ^ 32 →
    dispatchWhile s = { dispatchPass^[n] s with tick_count_g := 0 } := by
  intro n
  induction n with
  | zero =>
    intro s hs _
    rw [dispatchWhile_unfold, if_neg (by omega)]
    cases s
    simp only [Function.iterate_zero, id_eq] at *
    subst hs
    rfl
  | succ n ih =>
    intro s hs hn
    rw [dispatchWhile_unfold, if_pos (by omega), dispatchPass_tick, hs]
    have hdec : (n + 1 + 2 ^ 32 - 1) % 2 ^ 32 = n := by omega
    rw [hdec, ih _ rfl (by omega), dispatchPass_iterate_setTick,
      Function.iterate_succ_apply]

theorem iterate_pass_flag : ∀ (n : Nat) (s : Sched),
    (dispatchPass^[n] s).scheduler_overrun_flag = s.scheduler_overrun_flag := by
  intro n
  induction n with
  | zero => intro s; rfl
  | succ n ih => intro s; rw [Function.iterate_succ_apply, ih, dispatchPass_flag]

/-! ## Auxiliary lemmas: the firing schedule of one slot -/

theorem succ_mod_cases (a P : Nat) (hP : 0 < P) :
    (a + 1) % P = if a % P + 1 = P then 0 else a % P + 1 := by
  have hr : a % P < P := Nat.mod_lt _ hP
  by_cases h1 : P = 1
  · subst h1
    simp [Nat.mod_one]
  · rw [Nat.add_mod]
    have h1' : 1 % P = 1 := Nat.mod_eq_of_lt (by omega)
    rw [h1']
    split_ifs with h
    · rw [h, Nat.mod_self]
    · exact Nat.mod_eq_of_lt (by omega)

theorem iterate_pass_len : ∀ (n : Nat) (s : Sched),
    SCH_MAX_TASKS (dispatchPass^[n] s) = SCH_MAX_TASKS s := by
  intro n
  induction n with
  | zero => intro s; rfl
  | succ n ih => intro s; rw [Function.iterate_succ_apply, ih, dispatchPass_len]

theorem iterate_pass_slot : ∀ (n : Nat) (s : Sched) (j : Nat), j < SCH_MAX_TASKS s →
    readSlot (dispatchPass^[n] s) j = stepTask^[n] (readSlot s j) := by
  intro n
  induction n with
  | zero => intro s j _; rfl
  | succ n ih =>
    intro s j hj
    rw [Function.iterate_succ_apply, Function.iterate_succ_apply,
      ih _ j (by rw [dispatchPass_len]; exact hj), dispatchPass_slot s j hj]

theorem stepTask_occupied (h d P : Nat) (hh : h ≠ SCH_NULL_PTR) :
    stepTask ⟨h, d, P⟩ =
      ⟨h, if (d + 2 ^ 32 - 1) % 2 ^ 32 = 0 then P else (d + 2 ^ 32 - 1) % 2 ^ 32, P⟩ := by
  unfold stepTask
  rw [if_pos hh]
  split_ifs <;> rfl

/-- One pass moves the closed form one step further, and the task is due
exactly on the passes `D + 1`, `D + 1 + P`, `D + 1 + 2 P`, ... -/
theorem delayAfter_succ (D P m : Nat) (hD : D < 2 ^ 32) (hP0 : 0 < P) (hP : P < 2 ^ 32) :
    (if (delayAfter D P m + 2 ^ 32 - 1) % 2 ^ 32 = 0 then P
      else (delayAfter D P m + 2 ^ 32 - 1) % 2 ^ 32) = delayAfter D P (m + 1) ∧
    ((delayAfter D P m + 2 ^ 32 - 1) % 2 ^ 32 = 0 ↔ D ≤ m ∧ (m - D) % P = 0) := by
  rcases Nat.lt_trichotomy m D with hlt | heq | hgt
  · have e1 : delayAfter D P m = (D + 1 - m) % 2 ^ 32 := by
      unfold delayAfter; rw [if_pos (by omega)]
    have e2 : delayAfter D P (m + 1) = D - m := by
      unfold delayAfter; rw [if_pos (by omega)]; omega
    rw [e1, e2]
    have hne : ((D + 1 - m) % 2 ^ 32 + 2 ^ 32 - 1) % 2 ^ 32 = D - m := by omega
    rw [hne, if_neg (by omega)]
    refine ⟨rfl, ?_⟩
    constructor
    · intro h; omega
    · rintro ⟨h, _⟩; omega
  · subst heq
    have e1 : delayAfter m P m = 1 := by
      unfold delayAfter; rw [if_pos (le_refl _)]; omega
    have e2 : delayAfter m P (m + 1) = P := by
      unfold delayAfter
      rw [if_neg (by omega)]
      have : m + 1 - m - 1 = 0 := by omega
      rw [this, Nat.zero_mod]
      rfl
    rw [e1, e2]
    have hz : (1 + 2 ^ 32 - 1) % 2 ^ 32 = 0 := by norm_num
    rw [hz, if_pos rfl]
    refine ⟨rfl, ?_⟩
    constructor
    · intro _; exact ⟨le_refl _, by simp⟩
    · intro _; rfl
  · have hr : (m - D - 1) % P < P := Nat.mod_lt _ hP0
    have e1 : delayAfter D P m = P - (m - D - 1) % P := by
      unfold delayAfter; rw [if_neg (by omega)]
    have hs : m + 1 - D - 1 = (m - D - 1) + 1 := by omega
    have hs' : m - D = (m - D - 1) + 1 := by omega
    have e2 : delayAfter D P (m + 1)
        = P - (if (m - D - 1) % P + 1 = P then 0 else (m - D - 1) % P + 1) := by
      unfold delayAfter
      rw [if_neg (by omega), hs, succ_mod_cases _ _ hP0]
    have e3 : (m - D) % P = if (m - D - 1) % P + 1 = P then 0 else (m - D - 1) % P + 1 := by
      rw [hs', succ_mod_cases _ _ hP0]
      simp
    rw [e1, e2, e3]
    generalize (m - D - 1) % P = r at hr
    constructor
    · split_ifs <;> omega
    · constructor
      · intro h
        refine ⟨by omega, ?_⟩
        split_ifs <;> omega
      · rintro ⟨_, h⟩
        split_ifs at h
        omega

theorem stepTask_iterate (h D P : Nat) (hh : h ≠ SCH_NULL_PTR) (hD : D < 2 ^ 32)
    (hP0 : 0 < P) (hP : P < 2 ^ 32) : ∀ m,
    stepTask^[m] ⟨h, (D + 1) % 2 ^ 32, P⟩ = ⟨h, delayAfter D P m, P⟩ := by
  intro m
  induction m with
  | zero => simp [delayAfter]
  | succ m ih =>
    rw [Function.iterate_succ_apply', ih, stepTask_occupied _ _ _ hh,
      (delayAfter_succ D P m hD hP0 hP).1]

theorem due_iterate (h D P : Nat) (hh : h ≠ SCH_NULL_PTR) (hD : D < 2 ^ 32)
    (hP0 : 0 < P) (hP : P < 2 ^ 32) (m : Nat) :
    due (stepTask^[m] ⟨h, (D + 1) % 2 ^ 32, P⟩) ↔ D ≤ m ∧ (m - D) % P = 0 := by
  rw [stepTask_iterate h D P hh hD hP0 hP m, ← (delayAfter_succ D P m hD hP0 hP).2]
  unfold due occupied
  exact ⟨fun h => h.2, fun h => ⟨hh, h⟩⟩

theorem invocations_append (k : Nat) (a b : List (Nat × Nat)) :
    invocations k (a ++ b) = invocations k a + invocations k b := by
  unfold invocations
  rw [List.map_append, List.count_append]

theorem mem_newCalls_pass (s : Sched) (i h : Nat) :
    (i, h) ∈ newCalls s (dispatchPass s) ↔
      i < SCH_MAX_TASKS s ∧ due (readSlot s i) ∧ h = (readSlot s i).pTask := by
  rw [newCalls_dispatchPass]
  simp only [List.mem_map, List.mem_filter, List.mem_range, decide_eq_true_eq,
    Prod.mk.injEq]
  constructor
  · rintro ⟨a, ⟨ha1, ha2⟩, rfl, rfl⟩
    exact ⟨ha1, ha2, rfl⟩
  · rintro ⟨h1, h2, rfl⟩
    exact ⟨i, ⟨h1, h2⟩, rfl, rfl⟩

/-- A pass invokes a slot once when it is due and not at all otherwise. -/
theorem invocations_pass (s : Sched) (k : Nat) :
    invocations k (newCalls s (dispatchPass s)) =
      if k < SCH_MAX_TASKS s ∧ due (readSlot s k) then 1 else 0 := by
  unfold invocations
  rw [newCalls_dispatchPass_fst,
    List.count_eq_of_nodup (List.Nodup.filter _ (List.nodup_range _))]
  simp only [List.mem_filter, List.mem_range, decide_eq_true_eq]

theorem iterate_pass_calls : ∀ (n : Nat) (s : Sched),
    (dispatchPass^[n] s).calls = s.calls ++ newCalls s (dispatchPass^[n] s) := by
  intro n
  induction n with
  | zero => intro s; simp [newCalls]
  | succ n ih =>
    intro s
    have h1 := ih s
    have h2 := dispatchPass_calls (dispatchPass^[n] s)
    rw [← Function.iterate_succ_apply' dispatchPass n s] at h2
    unfold newCalls
    rw [h2, h1, List.append_assoc, List.drop_left]

theorem newCalls_iterate_succ (n : Nat) (s : Sched) :
    newCalls s (dispatchPass^[n + 1] s) =
      newCalls s (dispatchPass^[n] s)
        ++ newCalls (dispatchPass^[n] s) (dispatchPass^[n + 1] s) := by
  have h1 := iterate_pass_calls n s
  have h2 := dispatchPass_calls (dispatchPass^[n] s)
  rw [← Function.iterate_succ_apply' dispatchPass n s] at h2
  have h3 : newCalls (dispatchPass^[n] s) (dispatchPass^[n + 1] s)
      = ((List.range (SCH_MAX_TASKS (dispatchPass^[n] s))).filter
          (fun i => due (readSlot (dispatchPass^[n] s) i))).map
          (fun i => (i, (readSlot (dispatchPass^[n] s) i).pTask)) := by
    unfold newCalls
    rw [h2, List.drop_left]
  rw [h3]
  unfold newCalls
  rw [h2, h1, List.append_assoc, List.drop_left, List.drop_left]

/-- Invocations of the slot of a registered task on pass number `m + 1`. -/
theorem invocations_on_pass (s : Sched) (k h D P : Nat) (hk : k < SCH_MAX_TASKS s)
    (hslot : readSlot s k = ⟨h, (D + 1) % 2 ^ 32, P⟩) (hh : h ≠ SCH_NULL_PTR)
    (hD : D < 2 ^ 32) (hP0 : 0 < P) (hP : P < 2 ^ 32) (m : Nat) :
    invocations k (newCalls (dispatchPass^[m] s) (dispatchPass^[m + 1] s)) =
      if D ≤ m ∧ (m - D) % P = 0 then 1 else 0 := by
  rw [Function.iterate_succ_apply', invocations_pass, iterate_pass_len,
    iterate_pass_slot m s k hk, hslot]
  have hd := due_iterate h D P hh hD hP0 hP m
  by_cases hc : D ≤ m ∧ (m - D) % P = 0
  · rw [if_pos hc, if_pos ⟨hk, hd.2 hc⟩]
  · rw [if_neg hc, if_neg (fun x => hc (hd.1 x.2))]

/-- Invocations of the slot of a registered task during the first `n` passes. -/
theorem invocations_after (s : Sched) (k h D P : Nat) (hk : k < SCH_MAX_TASKS s)
    (hslot : readSlot s k = ⟨h, (D + 1) % 2 ^ 32, P⟩) (hh : h ≠ SCH_NULL_PTR)
    (hD : D < 2 ^ 32) (hP0 : 0 < P) (hP : P < 2 ^ 32) : ∀ n,
    invocations k (newCalls s (dispatchPass^[n] s)) =
      if n ≤ D then 0 else (n - D - 1) / P + 1 := by
  intro n
  induction n with
  | zero => simp [newCalls, invocations]
  | succ n ih =>
    rw [newCalls_iterate_succ, invocations_append, ih,
      invocations_on_pass s k h D P hk hslot hh hD hP0 hP n]
    rcases Nat.lt_trichotomy n D with hlt | heq | hgt
    · have e1 : (if n ≤ D then 0 else (n - D - 1) / P + 1) = 0 := if_pos (by omega)
      have e2 : (if D ≤ n ∧ (n - D) % P = 0 then 1 else 0) = 0 :=
        if_neg (fun x => absurd x.1 (by omega))
      have e3 : (if n + 1 ≤ D then 0 else (n + 1 - D - 1) / P + 1) = 0 := if_pos (by omega)
      rw [e1, e2, e3]
    · subst heq
      have e1 : (if n ≤ n then 0 else (n - n - 1) / P + 1) = 0 := if_pos (le_refl _)
      have e2 : (if n ≤ n ∧ (n - n) % P = 0 then 1 else 0) = 1 :=
        if_pos ⟨le_refl _, by simp⟩
      have e3 : (if n + 1 ≤ n then 0 else (n + 1 - n - 1) / P + 1) = 1 := by
        rw [if_neg (by omega)]
        have : n + 1 - n - 1 = 0 := by omega
        rw [this, Nat.zero_div]
      rw [e1, e2, e3]
    · obtain ⟨a, rfl⟩ : ∃ a, n = D + 1 + a := ⟨n - D - 1, by omega⟩
      have a1 : D + 1 + a - D - 1 = a := by omega
      have a2 : D + 1 + a - D = a + 1 := by omega
      have a3 : D + 1 + a + 1 - D - 1 = a + 1 := by omega
      have e1 : (if D + 1 + a ≤ D then 0 else (D + 1 + a - D - 1) / P + 1) = a / P + 1 := by
        rw [if_neg (by omega), a1]
      have e3 : (if D + 1 + a + 1 ≤ D then 0 else (D + 1 + a + 1 - D - 1) / P + 1)
          = (a + 1) / P + 1 := by
        rw [if_neg (by omega), a3]
      rw [e1, e3, a2, Nat.succ_div]
      by_cases hdvd : P ∣ a + 1
      · rw [if_pos hdvd, if_pos ⟨by omega, Nat.mod_eq_zero_of_dvd hdvd⟩]
      · rw [if_neg hdvd, if_neg (fun x => hdvd (Nat.dvd_of_mod_eq_zero x.2))]

theorem invoked_handle (s : Sched) (k h D P : Nat) (hk : k < SCH_MAX_TASKS s)
    (hslot : readSlot s k = ⟨h, (D + 1) % 2 ^ 32, P⟩) (hh : h ≠ SCH_NULL_PTR)
    (hD : D < 2 ^ 32) (hP0 : 0 < P) (hP : P < 2 ^ 32) (m x : Nat)
    (hx : (k, x) ∈ newCalls (dispatchPass^[m] s) (dispatchPass^[m + 1] s)) : x = h := by
  rw [Function.iterate_succ_apply', mem_newCalls_pass, iterate_pass_slot m s k hk, hslot,
    stepTask_iterate h D P hh hD hP0 hP m] at hx
  exact hx.2.2

/-! ## Auxiliary lemmas: ticks and dispatcher calls in the main loop -/

theorem dispatchSlot_setBoth (i x : Nat) (b : Bool) (s : Sched) :
    dispatchSlot i { s with tick_count_g := x, scheduler_overrun_flag := b }
      = { dispatchSlot i s with tick_count_g := x, scheduler_overrun_flag := b } := by
  unfold dispatchSlot readSlot
  dsimp only
  split_ifs <;> rfl

theorem dispatch_list_setBoth (x : Nat) (b : Bool) : ∀ (l : List Nat) (s : Sched),
    l.foldl (fun acc i => dispatchSlot i acc)
        { s with tick_count_g := x, scheduler_overrun_flag := b }
      = { l.foldl (fun acc i => dispatchSlot i acc) s with
          tick_count_g := x, scheduler_overrun_flag := b } := by
  intro l
  induction l with
  | nil => intro s; rfl
  | cons i l ih =>
    intro s
    rw [List.foldl_cons, List.foldl_cons, dispatchSlot_setBoth, ih]

theorem dispatchPass_setBoth (x : Nat) (b : Bool) (s : Sched) :
    dispatchPass { s with tick_count_g := x, scheduler_overrun_flag := b }
      = { dispatchPass s with tick_count_g := x, scheduler_overrun_flag := b } := by
  unfold dispatchPass
  exact dispatch_list_setBoth x b _ s

theorem dispatchPass_iterate_setBoth (x : Nat) (b : Bool) : ∀ (n : Nat) (s : Sched),
    dispatchPass^[n] { s with tick_count_g := x, scheduler_overrun_flag := b }
      = { dispatchPass^[n] s with tick_count_g := x, scheduler_overrun_flag := b } := by
  intro n
  induction n with
  | zero => intro s; rfl
  | succ n ih =>
    intro s
    rw [Function.iterate_succ_apply, Function.iterate_succ_apply, dispatchPass_setBoth, ih]

/-- While the counter does not wrap, `n` tick interrupts add `n` to it; they
touch nothing else but the overrun latch. -/
theorem tick_handler_iterate (L : Nat) : ∀ (n : Nat) (s : Sched),
    s.tick_count_g + n < 2 ^ 32 →
    ∃ b, (sch_tick_handler L)^[n] s
      = { s with tick_count_g := s.tick_count_g + n, scheduler_overrun_flag := b } := by
  intro n
  induction n with
  | zero => intro s _; exact ⟨s.scheduler_overrun_flag, rfl⟩
  | succ n ih =>
    intro s hs
    obtain ⟨b, hb⟩ := ih s (by omega)
    rw [Function.iterate_succ_apply', hb]
    unfold sch_tick_handler
    dsimp only
    have hm : (s.tick_count_g + n + 1) % 2 ^ 32 = s.tick_count_g + (n + 1) := by omega
    rw [hm]
    split_ifs
    · exact ⟨true, rfl⟩
    · exact ⟨b, rfl⟩

theorem tickThenDispatch_eq (L : Nat) (s : Sched) (n : Nat) (h0 : s.tick_count_g = 0)
    (hn : n < 2 ^ 32) :
    ∃ b, tickThenDispatch L s n
      = { dispatchPass^[n] s with tick_count_g := 0, scheduler_overrun_flag := b } := by
  obtain ⟨b, hb⟩ := tick_handler_iterate L n s (by omega)
  refine ⟨b, ?_⟩
  unfold tickThenDispatch sch_dispatch_tasks
  dsimp only
  rw [hb, h0, Nat.zero_add, dispatchWhile_eq n _ rfl hn, dispatchPass_iterate_setBoth]

theorem mainLoop_eq (L : Nat) : ∀ (ns : List Nat) (s : Sched), s.tick_count_g = 0 →
    (∀ n, n ∈ ns → n < 2 ^ 32) →
    ∃ b, mainLoop L ns s
      = { dispatchPass^[ns.sum] s with tick_count_g := 0, scheduler_overrun_flag := b } := by
  intro ns
  induction ns with
  | nil =>
    intro s h0 _
    refine ⟨s.scheduler_overrun_flag, ?_⟩
    cases s
    simp only [mainLoop, List.foldl_nil, List.sum_nil, Function.iterate_zero, id_eq] at *
    subst h0
    rfl
  | cons n ns ih =>
    intro s h0 hns
    obtain ⟨b, hb⟩ := tickThenDispatch_eq L s n h0 (hns n (List.mem_cons_self _ _))
    obtain ⟨b', hb'⟩ := ih (tickThenDispatch L s n) (by rw [hb])
      (fun m hm => hns m (List.mem_cons_of_mem _ hm))
    refine ⟨b', ?_⟩
    have hfold : mainLoop L (n :: ns) s = mainLoop L ns (tickThenDispatch L s n) := rfl
    rw [hfold, hb', hb, dispatchPass_iterate_setBoth, List.sum_cons, Nat.add_comm n,
      Function.iterate_add_apply]

theorem mainLoop_calls (L : Nat) (ns : List Nat) (s : Sched)
    (hns : ∀ n, n ∈ ns → n < 2 ^ 32) :
    (mainLoop L ns (sch_start s)).calls = (dispatchPass^[ns.sum] s).calls ∧
    (mainLoop L ns (sch_start s)).sch_tasks_g = (dispatchPass^[ns.sum] s).sch_tasks_g := by
  obtain ⟨b, hb⟩ := mainLoop_eq L ns (sch_start s) rfl hns
  have hstart : sch_start s = { s with tick_count_g := 0, scheduler_overrun_flag := false } :=
    rfl
  rw [hb, hstart, dispatchPass_iterate_setBoth]
  exact ⟨rfl, rfl⟩

/-! ## Auxiliary lemmas: the example of the specification -/

/-- The state of the specification's example: both calls succeed, `A` is in
slot 0 and `B` in slot 1. -/
theorem specExample_slots (hz : Nat) (s0 : Sched) (A B : Nat) (h4 : SCH_MAX_TASKS s0 = 4)
    (hA : A ≠ SCH_NULL_PTR) :
    (sch_add_task A 1 10 (sch_init_hz hz s0)).1 = EXIT_SUCCESS ∧
    (sch_add_task B 0 5 (sch_add_task A 1 10 (sch_init_hz hz s0)).2).1 = EXIT_SUCCESS ∧
    SCH_MAX_TASKS (specExample hz s0 A B) = 4 ∧
    readSlot (specExample hz s0 A B) 0 = ⟨A, (1 + 1) % 2 ^ 32, 10⟩ ∧
    readSlot (specExample hz s0 A B) 1 = ⟨B, (0 + 1) % 2 ^ 32, 5⟩ := by
  have hN : SCH_MAX_TASKS (sch_init_hz hz s0) = 4 := by rw [sch_init_hz_len, h4]
  have hfree : ∀ j, j < 4 → ¬ occupied (readSlot (sch_init_hz hz s0) j) :=
    fun j hj => sch_init_hz_empty hz s0 j (by omega)
  -- first call
  have hscan0 : scanGap (sch_init_hz hz s0) 0 = 0 :=
    scanGap_eq_of_first_free _ 0 (by omega) (hfree 0 (by omega))
      (fun j hj => absurd hj (by omega))
  have hcall0 := sch_add_task_ok A 1 10 (sch_init_hz hz s0) (by omega) (by omega)
  rw [hscan0] at hcall0
  -- second call
  have hN1 : SCH_MAX_TASKS (sch_add_task A 1 10 (sch_init_hz hz s0)).2 = 4 := by
    rw [hcall0]; simp only [SCH_MAX_TASKS, List.length_set]; exact hN
  have hs0 : readSlot (sch_add_task A 1 10 (sch_init_hz hz s0)).2 0
      = ⟨A, (1 + 1) % 2 ^ 32, 10⟩ := by
    rw [hcall0]; exact getD_set_same _ _ _ _ (by rw [← SCH_MAX_TASKS, hN]; omega)
  have hs1 : readSlot (sch_add_task A 1 10 (sch_init_hz hz s0)).2 1
      = readSlot (sch_init_hz hz s0) 1 := by
    rw [hcall0]; exact getD_set_other _ _ _ _ _ (by omega)
  have hscan1 : scanGap (sch_add_task A 1 10 (sch_init_hz hz s0)).2 0 = 1 := by
    apply scanGap_eq_of_first_free _ 1 (by omega)
    · rw [hs1]; exact hfree 1 (by omega)
    · intro j hj
      have : j = 0 := by omega
      subst this
      rw [hs0]; exact hA
  have hcall1 := sch_add_task_ok B 0 5 (sch_add_task A 1 10 (sch_init_hz hz s0)).2
    (by omega) (by omega)
  rw [hscan1] at hcall1
  have hex : specExample hz s0 A B
      = (sch_add_task B 0 5 (sch_add_task A 1 10 (sch_init_hz hz s0)).2).2 := rfl
  refine ⟨by rw [hcall0], by rw [hcall1], ?_, ?_, ?_⟩
  · rw [hex, hcall1]; simp only [SCH_MAX_TASKS, List.length_set]; exact hN1
  · rw [hex, hcall1, ← hs0]; exact getD_set_other _ _ _ _ _ (by omega)
  · rw [hex, hcall1]; exact getD_set_same _ _ _ _ (by rw [← SCH_MAX_TASKS, hN1]; omega)

/-- Firing counts in the specification's example, for every number of passes. -/
theorem specExample_counts (hz : Nat) (s0 : Sched) (A B : Nat) (h4 : SCH_MAX_TASKS s0 = 4)
    (hA : A ≠ SCH_NULL_PTR) (hB : B ≠ SCH_NULL_PTR) (n : Nat) :
    firedAfter (specExample hz s0 A B) 0 n = (if n ≤ 1 then 0 else (n - 1 - 1) / 10 + 1) ∧
    firedAfter (specExample hz s0 A B) 1 n = (if n ≤ 0 then 0 else (n - 0 - 1) / 5 + 1) := by
  obtain ⟨_, _, hN, hs0, hs1⟩ := specExample_slots hz s0 A B h4 hA
  unfold firedAfter
  exact ⟨invocations_after _ 0 A 1 10 (by omega) hs0 hA (by norm_num) (by norm_num)
      (by norm_num) n,
    invocations_after _ 1 B 0 5 (by omega) hs1 hB (by norm_num) (by norm_num)
      (by norm_num) n⟩

/-! ## Auxiliary lemmas: operations and invariants -/

/-- The slot claimed by a successful call and the state it leaves. -/
theorem sch_add_task_success_slot (pTask DELAY PERIOD : Nat) (s : Sched)
    (hok : (sch_add_task pTask DELAY PERIOD s).1 = EXIT_SUCCESS) :
    scanGap s 0 < SCH_MAX_TASKS s ∧ PERIOD ≠ 0 ∧
    ¬ occupied (readSlot s (scanGap s 0)) ∧
    (∀ j, j < scanGap s 0 → occupied (readSlot s j)) ∧
    SCH_MAX_TASKS (sch_add_task pTask DELAY PERIOD s).2 = SCH_MAX_TASKS s ∧
    readSlot (sch_add_task pTask DELAY PERIOD s).2 (scanGap s 0)
      = ⟨pTask, (DELAY + 1) % 2 ^ 32, PERIOD⟩ ∧
    (∀ j, j ≠ scanGap s 0 →
      readSlot (sch_add_task pTask DELAY PERIOD s).2 j = readSlot s j) := by
  obtain ⟨hgap, hp⟩ := (sch_add_task_ok_iff pTask DELAY PERIOD s).1 hok
  obtain ⟨h1, h2, h3⟩ := scanGap_zero s
  have hlt : scanGap s 0 < SCH_MAX_TASKS s := by omega
  rw [sch_add_task_ok pTask DELAY PERIOD s hgap hp]
  refine ⟨hlt, hp, h3 hlt, h2, ?_, ?_, ?_⟩
  · simp [SCH_MAX_TASKS]
  · exact getD_set_same _ _ _ _ hlt
  · intro j hj
    exact getD_set_other _ _ _ _ _ (Ne.symm hj)

theorem sch_add_task_cases (pTask DELAY PERIOD : Nat) (s : Sched) :
    sch_add_task pTask DELAY PERIOD s = (EXIT_FAILURE, s) ∨
    (sch_add_task pTask DELAY PERIOD s).1 = EXIT_SUCCESS := by
  by_cases h : scanGap s 0 = SCH_MAX_TASKS s
  · left; exact sch_add_task_full _ _ _ s h
  · by_cases hp : PERIOD = 0
    · left; subst hp; exact sch_add_task_zero _ _ s
    · right; rw [sch_add_task_ok _ _ _ s h hp]

/-- The loop of `sch_dispatch_tasks` is a number of drain passes, whatever the
counter holds. -/
theorem dispatchWhile_passes : ∀ (t : Nat) (s : Sched), s.tick_count_g = t →
    ∃ n x, dispatchWhile s = { dispatchPass^[n] s with tick_count_g := x } := by
  intro t
  induction t using Nat.strong_induction_on with
  | _ t ih =>
    intro s hs
    by_cases h0 : s.tick_count_g > 0
    · rw [dispatchWhile_unfold, if_pos h0, dispatchPass_tick]
      have hlt : (s.tick_count_g + 2 ^ 32 - 1) % 2 ^ 32 < t := by omega
      obtain ⟨n, x, hn⟩ := ih _ hlt
        { dispatchPass s with tick_count_g := (s.tick_count_g + 2 ^ 32 - 1) % 2 ^ 32 } rfl
      refine ⟨n + 1, x, ?_⟩
      rw [hn, dispatchPass_iterate_setTick, Function.iterate_succ_apply]
    · refine ⟨0, s.tick_count_g, ?_⟩
      rw [dispatchWhile_unfold, if_neg h0]
      rfl

theorem sch_dispatch_tasks_slots (s : Sched) :
    SCH_MAX_TASKS (sch_dispatch_tasks s).2 = SCH_MAX_TASKS s ∧
    ∃ n, ∀ i, i < SCH_MAX_TASKS s →
      readSlot (sch_dispatch_tasks s).2 i = stepTask^[n] (readSlot s i) := by
  obtain ⟨n, x, hn⟩ := dispatchWhile_passes _ s rfl
  have hst : (sch_dispatch_tasks s).2 = dispatchWhile s := rfl
  rw [hst, hn]
  refine ⟨iterate_pass_len n s, n, ?_⟩
  intro i hi
  exact iterate_pass_slot n s i hi

/-- What one operation does to a slot: a number of drain-pass steps, or the
registration of a descriptor in a slot that was unoccupied. -/
theorem runOp_slot (L : Nat) (op : Op) (s : Sched) :
    SCH_MAX_TASKS (runOp L op s) = SCH_MAX_TASKS s ∧
    ∀ i, i < SCH_MAX_TASKS s →
      (∃ n, readSlot (runOp L op s) i = stepTask^[n] (readSlot s i)) ∨
      (¬ occupied (readSlot s i) ∧ i = scanGap s 0 ∧ ∃ h D P, op = Op.add h D P ∧ P ≠ 0 ∧
        readSlot (runOp L op s) i = ⟨h, (D + 1) % 2 ^ 32, P⟩) := by
  cases op with
  | add h D P =>
    show SCH_MAX_TASKS (sch_add_task h D P s).2 = _ ∧ _
    rcases sch_add_task_cases h D P s with hf | hok
    · have hst : runOp L (Op.add h D P) s = s := by
        show (sch_add_task h D P s).2 = s
        rw [hf]
      rw [hf]
      refine ⟨rfl, fun i _ => Or.inl ⟨0, ?_⟩⟩
      rw [hst]; rfl
    · obtain ⟨h1, h2, h3, _, h5, h6, h7⟩ := sch_add_task_success_slot h D P s hok
      refine ⟨h5, fun i _ => ?_⟩
      by_cases hi : i = scanGap s 0
      · right
        subst hi
        exact ⟨h3, rfl, h, D, P, rfl, h2, h6⟩
      · left
        exact ⟨0, h7 i hi⟩
  | start => exact ⟨rfl, fun i _ => Or.inl ⟨0, rfl⟩⟩
  | tick =>
    refine ⟨?_, fun i _ => Or.inl ⟨0, ?_⟩⟩
    · show SCH_MAX_TASKS (sch_tick_handler L s) = _
      unfold sch_tick_handler; dsimp only; split_ifs <;> rfl
    · show readSlot (sch_tick_handler L s) i = _
      unfold sch_tick_handler; dsimp only; split_ifs <;> rfl
  | pass =>
    exact ⟨dispatchPass_len s, fun i hi => Or.inl ⟨1, dispatchPass_slot s i hi⟩⟩
  | dispatch =>
    obtain ⟨hN, n, hn⟩ := sch_dispatch_tasks_slots s
    exact ⟨hN, fun i hi => Or.inl ⟨n, hn i hi⟩⟩

theorem stepTask_iterate_keeps (Q : sTask → Prop) (hstep : ∀ t, Q t → Q (stepTask t)) :
    ∀ (n : Nat) (t : sTask), Q t → Q (stepTask^[n] t) := by
  intro n
  induction n with
  | zero => intro t ht; exact ht
  | succ n ih => intro t ht; rw [Function.iterate_succ_apply]; exact ih _ (hstep t ht)

/-- A property of slots that drain passes keep and that every registered
descriptor has holds in all slots after any operations. -/
theorem runOps_slotwise (L : Nat) (Q : sTask → Prop) (hstep : ∀ t, Q t → Q (stepTask t)) :
    ∀ (ops : List Op) (s : Sched),
    (∀ h D P, Op.add h D P ∈ ops → P ≠ 0 → Q ⟨h, (D + 1) % 2 ^ 32, P⟩) →
    (∀ i, i < SCH_MAX_TASKS s → Q (readSlot s i)) →
    SCH_MAX_TASKS (runOps L ops s) = SCH_MAX_TASKS s ∧
    ∀ i, i < SCH_MAX_TASKS s → Q (readSlot (runOps L ops s) i) := by
  intro ops
  induction ops with
  | nil => intro s _ hs; exact ⟨rfl, hs⟩
  | cons op ops ih =>
    intro s hadd hs
    obtain ⟨hN, hslot⟩ := runOp_slot L op s
    have hnext : ∀ i, i < SCH_MAX_TASKS (runOp L op s) → Q (readSlot (runOp L op s) i) := by
      intro i hi
      rw [hN] at hi
      rcases hslot i hi with ⟨n, hn⟩ | ⟨_, _, h, D, P, hop, hP, hd⟩
      · rw [hn]; exact stepTask_iterate_keeps Q hstep n _ (hs i hi)
      · rw [hd]
        exact hadd h D P (by rw [hop]; exact List.mem_cons_self _ _) hP
    obtain ⟨hN2, h2⟩ := ih (runOp L op s)
      (fun h D P hm => hadd h D P (List.mem_cons_of_mem _ hm)) hnext
    have hfold : runOps L (op :: ops) s = runOps L ops (runOp L op s) := rfl
    rw [hfold]
    exact ⟨by rw [hN2, hN], fun i hi => h2 i (by rw [hN]; exact hi)⟩

/-- No operation empties or overwrites an occupied slot. -/
theorem runOps_keeps_handle (L : Nat) : ∀ (ops : List Op) (s : Sched) (k : Nat),
    k < SCH_MAX_TASKS s → occupied (readSlot s k) →
    SCH_MAX_TASKS (runOps L ops s) = SCH_MAX_TASKS s ∧
    (readSlot (runOps L ops s) k).pTask = (readSlot s k).pTask := by
  intro ops
  induction ops with
  | nil => intro s k _ _; exact ⟨rfl, rfl⟩
  | cons op ops ih =>
    intro s k hk hocc
    obtain ⟨hN, hslot⟩ := runOp_slot L op s
    have hsame : (readSlot (runOp L op s) k).pTask = (readSlot s k).pTask := by
      rcases hslot k hk with ⟨n, hn⟩ | ⟨hfree, _⟩
      · rw [hn]
        exact stepTask_iterate_keeps (fun t => t.pTask = (readSlot s k).pTask)
          (fun t ht => (stepTask_pTask t).trans ht) n _ rfl
      · exact absurd hocc hfree
    have hocc' : occupied (readSlot (runOp L op s) k) := by
      unfold occupied; rw [hsame]; exact hocc
    obtain ⟨hN2, h2⟩ := ih (runOp L op s) k (by rw [hN]; exact hk) hocc'
    have hfold : runOps L (op :: ops) s = runOps L ops (runOp L op s) := rfl
    rw [hfold]
    exact ⟨by rw [hN2, hN], by rw [h2, hsame]⟩

theorem countP_range_gain (p q : Nat → Bool) (k : Nat) (hq : q k = false) (hp : p k = true)
    (hsame : ∀ i, i ≠ k → p i = q i) : ∀ n, k < n →
    (List.range n).countP p = (List.range n).countP q + 1 := by
  intro n
  induction n with
  | zero => intro h; omega
  | succ n ih =>
    intro hk
    rw [List.range_succ, List.countP_append, List.countP_append]
    by_cases hkn : k = n
    · subst hkn
      have hcongr : (List.range k).countP p = (List.range k).countP q := by
        apply List.countP_congr
        intro i hi
        rw [List.mem_range] at hi
        rw [hsame i (by omega)]
      rw [hcongr]
      simp [List.countP_cons, hp, hq]
    · rw [ih (by omega)]
      have : p n = q n := hsame n (fun h => hkn h.symm)
      simp [List.countP_cons, this]
      omega

theorem occupiedCount_gain (s s' : Sched) (k : Nat) (hN : SCH_MAX_TASKS s' = SCH_MAX_TASKS s)
    (hk : k < SCH_MAX_TASKS s) (hfree : ¬ occupied (readSlot s k))
    (hocc : occupied (readSlot s' k)) (hsame : ∀ j, j ≠ k → readSlot s' j = readSlot s j) :
    occupiedCount s' = occupiedCount s + 1 := by
  unfold occupiedCount
  rw [hN]
  apply countP_range_gain _ _ k _ _ _ _ hk
  · exact decide_eq_false hfree
  · exact decide_eq_true hocc
  · intro i hi
    rw [hsame i hi]

theorem occupiedCount_same (s s' : Sched) (hN : SCH_MAX_TASKS s' = SCH_MAX_TASKS s)
    (hsame : ∀ j, occupied (readSlot s' j) ↔ occupied (readSlot s j)) :
    occupiedCount s' = occupiedCount s := by
  unfold occupiedCount
  rw [hN]
  apply List.countP_congr
  intro i _
  simp only [decide_eq_true_eq]
  exact hsame i

/-! ## Auxiliary lemmas: the reads of the free-slot scan -/

theorem scanGapReads_unfold (s : Sched) (i : Nat) :
    scanGapReads s i =
      if (readSlot s i).pTask ≠ SCH_NULL_PTR ∧ i < SCH_MAX_TASKS s then
        i :: scanGapReads s (i + 1)
      else [i] := by
  rw [scanGapReads]
  split_ifs <;> rfl

/-- The loop reads the indices from its start up to and including the index
at which it stops. -/
theorem scanGapReads_eq (s : Sched) : ∀ (d i : Nat), SCH_MAX_TASKS s - i = d →
    scanGapReads s i = List.range' i (scanGap s i + 1 - i) := by
  intro d
  induction d with
  | zero =>
    intro i hd
    have hi : ¬ i < SCH_MAX_TASKS s := by omega
    rw [scanGapReads_unfold, scanGap_unfold, if_neg (fun h => hi h.2),
      if_neg (fun h => hi h.2)]
    have : i + 1 - i = 1 := by omega
    rw [this]
    rfl
  | succ d ih =>
    intro i hd
    rw [scanGapReads_unfold, scanGap_unfold]
    by_cases hc : (readSlot s i).pTask ≠ SCH_NULL_PTR ∧ i < SCH_MAX_TASKS s
    · rw [if_pos hc, if_pos hc, ih (i + 1) (by omega)]
      obtain ⟨hle, _⟩ := scanGap_spec s _ (i + 1) rfl (by omega)
      have : scanGap s (i + 1) + 1 - i = (scanGap s (i + 1) + 1 - (i + 1)) + 1 := by omega
      rw [this]
      rfl
    · rw [if_neg hc, if_neg hc]
      have : i + 1 - i = 1 := by omega
      rw [this]
      rfl

theorem mem_scanGapReads (s : Sched) (r : Nat) :
    r ∈ scanGapReads s 0 ↔ r ≤ scanGap s 0 := by
  rw [scanGapReads_eq s _ 0 rfl, List.mem_range']
  constructor
  · rintro ⟨j, hj, rfl⟩; omega
  · intro h; exact ⟨r, by omega, by omega⟩

/-! ## Auxiliary lemmas: the tick interrupt interleaved with the dispatcher -/

theorem runEvents_append (L : Nat) (a b : List Event) (m : Machine) :
    runEvents L (a ++ b) m = runEvents L b (runEvents L a m) := by
  simp [runEvents, List.foldl_append]

theorem runEvents_cons (L : Nat) (e : Event) (es : List Event) (m : Machine) :
    runEvents L (e :: es) m = runEvents L es (step L e m) := rfl

theorem runEvents_snoc (L : Nat) (es : List Event) (e : Event) (m : Machine) :
    runEvents L (es ++ [e]) m = step L e (runEvents L es m) := by
  rw [runEvents_append]; rfl

theorem tick_handler_tick (L : Nat) (s : Sched) :
    (sch_tick_handler L s).tick_count_g = (s.tick_count_g + 1) % 2 ^ 32 := by
  unfold sch_tick_handler; dsimp only; split_ifs <;> rfl

theorem tick_handler_flag (L : Nat) (s : Sched) :
    (sch_tick_handler L s).scheduler_overrun_flag = true ↔
      s.scheduler_overrun_flag = true ∨ (s.tick_count_g + 1) % 2 ^ 32 > L := by
  unfold sch_tick_handler
  dsimp only
  split_ifs with h
  · exact ⟨fun _ => Or.inr h, fun _ => rfl⟩
  · exact ⟨fun hf => Or.inl hf, fun hf => hf.elim id (fun x => absurd x h)⟩

theorem step_irq_pc (L : Nat) (m : Machine) : (step L Event.irq m).pc = m.pc := rfl

theorem step_irq_decs (L : Nat) (m : Machine) : (step L Event.irq m).decs = m.decs := rfl

theorem step_irq_incs (L : Nat) (m : Machine) : (step L Event.irq m).incs = m.incs + 1 := rfl

theorem step_irq_rets (L : Nat) (m : Machine) : (step L Event.irq m).rets = m.rets := rfl

theorem step_irq_s (L : Nat) (m : Machine) :
    (step L Event.irq m).s = sch_tick_handler L m.s := rfl

theorem mainStep_flag (m : Machine) :
    (mainStep m).s.scheduler_overrun_flag = m.s.scheduler_overrun_flag := by
  obtain ⟨⟨tasks, tick, flag, past, calls⟩, pc, incs, decs, rets⟩ := m
  cases pc with
  | idle =>
    simp only [mainStep]
    split_ifs <;> rfl
  | body i =>
    simp only [mainStep]
    split_ifs <;> first | exact dispatchSlot_flag _ _ | rfl
  | leave => rfl

theorem mainStep_incs (m : Machine) : (mainStep m).incs = m.incs := by
  obtain ⟨⟨tasks, tick, flag, past, calls⟩, pc, incs, decs, rets⟩ := m
  cases pc with
  | idle =>
    simp only [mainStep]
    split_ifs <;> rfl
  | body i =>
    simp only [mainStep]
    split_ifs <;> rfl
  | leave => rfl

/-- A step of the main thread appends to the returned values only the value
of the latch. -/
theorem mainStep_rets (m : Machine) :
    (mainStep m).rets = m.rets ∨
    (mainStep m).rets = m.rets ++ [if m.s.scheduler_overrun_flag then 1 else 0] := by
  obtain ⟨⟨tasks, tick, flag, past, calls⟩, pc, incs, decs, rets⟩ := m
  cases pc with
  | idle =>
    left
    simp only [mainStep]
    split_ifs <;> rfl
  | body i =>
    left
    simp only [mainStep]
    split_ifs <;> rfl
  | leave => right; rfl

theorem conserved_main (m : Machine) (h : conserved m) : conserved (mainStep m) := by
  obtain ⟨⟨tasks, tick, flag, past, calls⟩, pc, incs, decs, rets⟩ := m
  simp only [conserved] at h
  obtain ⟨h1, h2, h3⟩ := h
  cases pc with
  | idle =>
    simp only [mainStep]
    split_ifs with h0
    · exact ⟨h1, h2, fun _ _ => h0⟩
    · exact ⟨h1, h2, fun j hj => by cases hj⟩
  | body i =>
    have hge : 1 ≤ tick := h3 i rfl
    simp only [mainStep]
    split_ifs with hi hpos
    · refine ⟨?_, ?_, fun j _ => ?_⟩
      · show (dispatchSlot i _).tick_count_g + decs = incs
        rw [dispatchSlot_tick]; exact h1
      · show (dispatchSlot i _).tick_count_g < 2 ^ 32
        rw [dispatchSlot_tick]; exact h2
      · show 1 ≤ (dispatchSlot i _).tick_count_g
        rw [dispatchSlot_tick]; exact hge
    · refine ⟨?_, ?_, fun j _ => ?_⟩
      · show (tick + 2 ^ 32 - 1) % 2 ^ 32 + (decs + 1) = incs
        omega
      · show (tick + 2 ^ 32 - 1) % 2 ^ 32 < 2 ^ 32
        omega
      · show 1 ≤ (tick + 2 ^ 32 - 1) % 2 ^ 32
        omega
    · refine ⟨?_, ?_, fun j hj => by cases hj⟩
      · show (tick + 2 ^ 32 - 1) % 2 ^ 32 + (decs + 1) = incs
        omega
      · show (tick + 2 ^ 32 - 1) % 2 ^ 32 < 2 ^ 32
        omega
  | leave =>
    exact ⟨h1, h2, fun j hj => by cases hj⟩

theorem conserved_irq (L : Nat) (m : Machine) (h : conserved m)
    (hw : m.s.tick_count_g < 2 ^ 32 - 1) : conserved (step L Event.irq m) := by
  obtain ⟨h1, h2, h3⟩ := h
  have ht : (sch_tick_handler L m.s).tick_count_g = m.s.tick_count_g + 1 := by
    rw [tick_handler_tick]; omega
  unfold conserved
  rw [step_irq_s, step_irq_decs, step_irq_incs, step_irq_pc, ht]
  exact ⟨by omega, by omega, fun j _ => by omega⟩

theorem conserved_run (L : Nat) : ∀ (es : List Event) (m : Machine),
    conserved m → noWrap L es m = true → conserved (runEvents L es m) := by
  intro es
  induction es with
  | nil => intro m h _; exact h
  | cons e es ih =>
    intro m h hw
    rw [runEvents_cons]
    cases e with
    | irq =>
      simp only [noWrap, Bool.and_eq_true, decide_eq_true_eq] at hw
      exact ih _ (conserved_irq L m h hw.1) hw.2
    | main =>
      simp only [noWrap] at hw
      exact ih _ (conserved_main m h) hw

theorem latched_main (L : Nat) (m : Machine) (h : latched L m) : latched L (mainStep m) := by
  obtain ⟨⟨tasks, tick, flag, past, calls⟩, pc, incs, decs, rets⟩ := m
  obtain ⟨h1, h2, h3⟩ := h
  have h1' : tick < 2 ^ 32 := h1
  have h2' : tick > L → flag = true := h2
  have hdec' : (tick = 0 → flag = true ∨ 2 ^ 32 - 1 ≤ L) →
      (tick + 2 ^ 32 - 1) % 2 ^ 32 > L → flag = true := by
    intro hw hgt
    by_cases ht : tick = 0
    · rcases hw ht with hf | hl
      · exact hf
      · omega
    · apply h2'
      omega
  cases pc with
  | idle =>
    simp only [mainStep]
    split_ifs with h0
    · refine ⟨h1, h2, fun _ _ hz => ?_⟩
      have hz' : tick = 0 := hz
      omega
    · exact ⟨h1, h2, fun j hj => by cases hj⟩
  | body i =>
    have hwrap := h3 i rfl
    have hdec := hdec' hwrap
    simp only [mainStep]
    split_ifs with hi hpos
    · refine ⟨?_, ?_, fun j _ => ?_⟩
      · show (dispatchSlot i _).tick_count_g < 2 ^ 32
        rw [dispatchSlot_tick]; exact h1
      · show (dispatchSlot i _).tick_count_g > L →
          (dispatchSlot i _).scheduler_overrun_flag = true
        rw [dispatchSlot_tick, dispatchSlot_flag]; exact h2
      · show (dispatchSlot i _).tick_count_g = 0 →
          (dispatchSlot i _).scheduler_overrun_flag = true ∨ 2 ^ 32 - 1 ≤ L
        rw [dispatchSlot_tick, dispatchSlot_flag]; exact hwrap
    · refine ⟨?_, hdec, fun j _ hz => ?_⟩
      · show (tick + 2 ^ 32 - 1) % 2 ^ 32 < 2 ^ 32
        omega
      · have hz' : (tick + 2 ^ 32 - 1) % 2 ^ 32 = 0 := hz
        omega
    · refine ⟨?_, hdec, fun j hj => by cases hj⟩
      show (tick + 2 ^ 32 - 1) % 2 ^ 32 < 2 ^ 32
      omega
  | leave =>
    exact ⟨h1, h2, fun j hj => by cases hj⟩

theorem latched_irq (L : Nat) (m : Machine) (h : latched L m) :
    latched L (step L Event.irq m) := by
  obtain ⟨h1, h2, h3⟩ := h
  have ht := tick_handler_tick L m.s
  have hf := tick_handler_flag L m.s
  unfold latched
  rw [step_irq_s, step_irq_pc, ht]
  refine ⟨by omega, fun hgt => hf.2 (Or.inr hgt), fun i _ hz => ?_⟩
  by_cases hl : 2 ^ 32 - 1 ≤ L
  · exact Or.inr hl
  · exact Or.inl (hf.2 (Or.inl (h2 (by omega))))

theorem latched_run (L : Nat) : ∀ (es : List Event) (m : Machine),
    latched L m → latched L (runEvents L es m) := by
  intro es
  induction es with
  | nil => intro m h; exact h
  | cons e es ih =>
    intro m h
    rw [runEvents_cons]
    cases e with
    | irq => exact ih _ (latched_irq L m h)
    | main => exact ih _ (latched_main L m h)

theorem step_flag_mono (L : Nat) (e : Event) (m : Machine)
    (h : m.s.scheduler_overrun_flag = true) :
    (step L e m).s.scheduler_overrun_flag = true := by
  cases e with
  | irq => rw [step_irq_s]; exact (tick_handler_flag L m.s).2 (Or.inl h)
  | main => show (mainStep m).s.scheduler_overrun_flag = true; rw [mainStep_flag]; exact h

/-- Once the latch is set it stays set, and every value returned afterwards
is 1. -/
theorem latch_sticky (L : Nat) : ∀ (es : List Event) (m : Machine),
    m.s.scheduler_overrun_flag = true →
    (runEvents L es m).s.scheduler_overrun_flag = true ∧
    ∃ l, (runEvents L es m).rets = m.rets ++ l ∧ ∀ r, r ∈ l → r = 1 := by
  intro es
  induction es with
  | nil => intro m h; exact ⟨h, [], by simp [runEvents], fun r hr => by cases hr⟩
  | cons e es ih =>
    intro m h
    rw [runEvents_cons]
    obtain ⟨hf, l, hl, hall⟩ := ih (step L e m) (step_flag_mono L e m h)
    refine ⟨hf, ?_⟩
    cases e with
    | irq => exact ⟨l, by rw [hl, step_irq_rets], hall⟩
    | main =>
      rcases mainStep_rets m with hr | hr
      · exact ⟨l, by rw [hl]; show (mainStep m).rets ++ l = _; rw [hr], hall⟩
      · refine ⟨[1] ++ l, ?_, ?_⟩
        · rw [hl]
          show (mainStep m).rets ++ l = _
          rw [hr, h]
          simp
        · intro r hr'
          rcases List.mem_append.1 hr' with h1 | h1
          · simpa using h1
          · exact hall r h1

/-- The latch is set only by a tick that leaves the counter above the limit. -/
theorem latch_origin (L : Nat) : ∀ (es : List Event) (m : Machine),
    (runEvents L es m).s.scheduler_overrun_flag = true →
    m.s.scheduler_overrun_flag = true ∨
    ∃ k, k ≤ es.length ∧ (runEvents L (es.take k) m).s.tick_count_g > L := by
  intro es
  induction es with
  | nil => intro m h; exact Or.inl h
  | cons e es ih =>
    intro m h
    rw [runEvents_cons] at h
    rcases ih (step L e m) h with hf | ⟨k, hk, hgt⟩
    · cases e with
      | irq =>
        rw [step_irq_s] at hf
        rcases (tick_handler_flag L m.s).1 hf with h1 | h1
        · exact Or.inl h1
        · refine Or.inr ⟨1, by simp, ?_⟩
          show (step L Event.irq (runEvents L [] m)).s.tick_count_g > L
          show (sch_tick_handler L m.s).tick_count_g > L
          rw [tick_handler_tick]; exact h1
      | main =>
        left
        rw [← mainStep_flag m]; exact hf
    · exact Or.inr ⟨k + 1, by simp; omega, by rw [List.take_succ_cons, runEvents_cons]; exact hgt⟩

/-- Any number of tick interrupts adds that number to the counter modulo
`2 ^ 32`; they touch nothing else but the overrun latch. -/
theorem tick_handler_iterate_mod (L : Nat) : ∀ (n : Nat) (s : Sched),
    s.tick_count_g < 2 ^ 32 →
    ∃ b, (sch_tick_handler L)^[n] s
      = { s with tick_count_g := (s.tick_count_g + n) % 2 ^ 32, scheduler_overrun_flag := b } := by
  intro n
  induction n with
  | zero =>
    intro s hs
    refine ⟨s.scheduler_overrun_flag, ?_⟩
    obtain ⟨tasks, tick, flag, past, calls⟩ := s
    have ht : tick < 2 ^ 32 := hs
    have hm : (tick + 0) % 2 ^ 32 = tick := by omega
    simp only [Function.iterate_zero, id_eq, hm]
  | succ n ih =>
    intro s hs
    obtain ⟨b, hb⟩ := ih s hs
    rw [Function.iterate_succ_apply', hb]
    obtain ⟨tasks, tick, flag, past, calls⟩ := s
    have hm : ((tick + n) % 2 ^ 32 + 1) % 2 ^ 32 = (tick + (n + 1)) % 2 ^ 32 := by omega
    simp only [sch_tick_handler, hm]
    split_ifs
    · exact ⟨true, rfl⟩
    · exact ⟨b, rfl⟩

theorem runEvents_irqs (L : Nat) : ∀ (n : Nat) (m : Machine),
    runEvents L (List.replicate n Event.irq) m
      = { m with s := (sch_tick_handler L)^[n] m.s, incs := m.incs + n } := by
  intro n
  induction n with
  | zero => intro m; rfl
  | succ n ih =>
    intro m
    rw [List.replicate_succ, runEvents_cons, ih]
    obtain ⟨s, pc, incs, decs, rets⟩ := m
    simp only [step, Function.iterate_succ_apply, Machine.mk.injEq, true_and, and_true]
    omega

/-! ## Auxiliary lemmas: the main thread without interrupts is `sch_dispatch_tasks` -/

theorem runEvents_mains_succ (L : Nat) (n : Nat) (m : Machine) :
    runEvents L (List.replicate (n + 1) Event.main) m
      = runEvents L (List.replicate n Event.main) (mainStep m) := by
  rw [List.replicate_succ, runEvents_cons]
  rfl

/-- The steps of the main thread through the `for` loop, from index `i` to
the end of the array, are the loop body for the indices `i`, `i + 1`, ... -/
theorem machine_for_loop (L : Nat) : ∀ (k i : Nat) (s : Sched) (incs decs : Nat)
    (rets : List Int), i + k = SCH_MAX_TASKS s →
    runEvents L (List.replicate k Event.main) ⟨s, Pc.body i, incs, decs, rets⟩
      = ⟨(List.range' i k).foldl (fun acc j => dispatchSlot j acc) s,
          Pc.body (i + k), incs, decs, rets⟩ := by
  intro k
  induction k with
  | zero => intro i s incs decs rets _; rfl
  | succ k ih =>
    intro i s incs decs rets hk
    have hi : i < SCH_MAX_TASKS s := by omega
    have hstep : mainStep ⟨s, Pc.body i, incs, decs, rets⟩
        = ⟨dispatchSlot i s, Pc.body (i + 1), incs, decs, rets⟩ := by
      simp only [mainStep, hi, if_true]
    rw [runEvents_mains_succ, hstep,
      ih (i + 1) (dispatchSlot i s) incs decs rets (by rw [dispatchSlot_len]; omega)]
    have hidx : i + 1 + k = i + (k + 1) := by omega
    rw [hidx]
    rfl


theorem runEvents_mains_add (L : Nat) (a b : Nat) (m : Machine) :
    runEvents L (List.replicate (a + b) Event.main) m
      = runEvents L (List.replicate b Event.main)
          (runEvents L (List.replicate a Event.main) m) := by
  rw [List.replicate_add, runEvents_append]

/-- One turn of the `while` loop of the main thread: the drain pass, then
the decrement and the test of the counter. -/
theorem machine_while_turn (L : Nat) (tasks : List sTask) (tick : Nat) (flag : Bool)
    (past : sTask) (calls : List (Nat × Nat)) (incs decs : Nat) (rets : List Int) :
    runEvents L (List.replicate (tasks.length + 1) Event.main)
        ⟨⟨tasks, tick, flag, past, calls⟩, Pc.body 0, incs, decs, rets⟩
      = ⟨{ dispatchPass ⟨tasks, tick, flag, past, calls⟩ with
            tick_count_g := (tick + 2 ^ 32 - 1) % 2 ^ 32 },
          if (tick + 2 ^ 32 - 1) % 2 ^ 32 > 0 then Pc.body 0 else Pc.leave,
          incs, decs + 1, rets⟩ := by
  have hfor := machine_for_loop L tasks.length 0 ⟨tasks, tick, flag, past, calls⟩
    incs decs rets (by simp [SCH_MAX_TASKS])
  rw [runEvents_mains_add, hfor, ← List.range_eq_range']
  have hpass : (List.range tasks.length).foldl (fun acc j => dispatchSlot j acc)
      ⟨tasks, tick, flag, past, calls⟩ = dispatchPass ⟨tasks, tick, flag, past, calls⟩ := rfl
  rw [hpass]
  have hlen := dispatchPass_len ⟨tasks, tick, flag, past, calls⟩
  have htick := dispatchPass_tick ⟨tasks, tick, flag, past, calls⟩
  generalize dispatchPass ⟨tasks, tick, flag, past, calls⟩ = s1 at hlen htick
  obtain ⟨tasks1, tick1, flag1, past1, calls1⟩ := s1
  have hl : tasks1.length = tasks.length := hlen
  have ht : tick1 = tick := htick
  subst ht
  have hnot : ¬ (0 + tasks.length < tasks1.length) := by omega
  simp only [List.replicate, runEvents, List.foldl, step, mainStep, SCH_MAX_TASKS, hnot,
    if_false]


/-- The `while` loop of the main thread with a backlog of `t + 1` ticks and
no tick interrupt: `t + 1` drain passes and as many decrements. -/
theorem machine_while_loop (L : Nat) : ∀ (t : Nat) (s : Sched) (incs decs : Nat)
    (rets : List Int), s.tick_count_g = t + 1 → t + 1 < 2 ^ 32 →
    ∃ n, runEvents L (List.replicate n Event.main) ⟨s, Pc.body 0, incs, decs, rets⟩
      = ⟨{ dispatchPass^[t + 1] s with tick_count_g := 0 }, Pc.leave, incs,
          decs + (t + 1), rets⟩ := by
  intro t
  induction t with
  | zero =>
    intro s incs decs rets hs _
    obtain ⟨tasks, tick, flag, past, calls⟩ := s
    have ht : tick = 1 := hs
    subst ht
    refine ⟨tasks.length + 1, ?_⟩
    rw [machine_while_turn]
    have hm : (1 + 2 ^ 32 - 1) % 2 ^ 32 = 0 := by norm_num
    simp only [hm, gt_iff_lt, lt_self_iff_false, if_false, Function.iterate_succ,
      Function.iterate_zero, Function.comp_apply, id_eq, zero_add]
  | succ t ih =>
    intro s incs decs rets hs hlt
    obtain ⟨tasks, tick, flag, past, calls⟩ := s
    have ht : tick = t + 1 + 1 := hs
    subst ht
    have hm : (t + 1 + 1 + 2 ^ 32 - 1) % 2 ^ 32 = t + 1 := by omega
    obtain ⟨n, hn⟩ := ih
      { dispatchPass ⟨tasks, t + 1 + 1, flag, past, calls⟩ with tick_count_g := t + 1 }
      incs (decs + 1) rets rfl (by omega)
    refine ⟨tasks.length + 1 + n, ?_⟩
    rw [runEvents_mains_add, machine_while_turn, hm, if_pos (by omega), hn,
      dispatchPass_iterate_setTick]
    have hd : decs + 1 + (t + 1) = decs + (t + 1 + 1) := by omega
    rw [hd, Function.iterate_succ_apply dispatchPass (t + 1)]

/-- Without tick interrupts, the steps of the main thread from the entry of
the dispatcher to its return compute `sch_dispatch_tasks`: the same state, the
same return value, and as many decrements as the counter held. -/
theorem machine_runs_dispatch (L : Nat) (s : Sched) (incs decs : Nat) (rets : List Int)
    (h : s.tick_count_g < 2 ^ 32) :
    ∃ n, runEvents L (List.replicate n Event.main) ⟨s, Pc.idle, incs, decs, rets⟩
      = ⟨(sch_dispatch_tasks s).2, Pc.idle, incs, decs + s.tick_count_g,
          rets ++ [(sch_dispatch_tasks s).1]⟩ := by
  have hst : (sch_dispatch_tasks s).2 = dispatchWhile s := rfl
  have hret : (sch_dispatch_tasks s).1
      = if (dispatchWhile s).scheduler_overrun_flag = true then 1 else 0 := rfl
  have hflag : (dispatchWhile s).scheduler_overrun_flag = s.scheduler_overrun_flag := by
    rw [dispatchWhile_eq _ s rfl h]
    exact iterate_pass_flag _ s
  rw [hst, hret]
  by_cases h0 : s.tick_count_g = 0
  · refine ⟨2, ?_⟩
    have hw : dispatchWhile s = s := by
      rw [dispatchWhile_unfold, if_neg (by omega)]
    rw [hw, h0]
    obtain ⟨tasks, tick, flag, past, calls⟩ := s
    have ht : tick = 0 := h0
    subst ht
    rfl
  · obtain ⟨t, ht⟩ : ∃ t, s.tick_count_g = t + 1 := ⟨s.tick_count_g - 1, by omega⟩
    obtain ⟨n, hn⟩ := machine_while_loop L t s incs decs rets ht (by omega)
    refine ⟨1 + n + 1, ?_⟩
    have hentry : runEvents L (List.replicate 1 Event.main) ⟨s, Pc.idle, incs, decs, rets⟩
        = ⟨s, Pc.body 0, incs, decs, rets⟩ := by
      have hpos : s.tick_count_g > 0 := by omega
      simp only [List.replicate, runEvents, List.foldl, step, mainStep, hpos, if_true]
    rw [runEvents_mains_add, runEvents_mains_add, hentry, hn, dispatchWhile_eq _ s rfl h, ht]
    have hfl : (dispatchPass^[t + 1] s).scheduler_overrun_flag = s.scheduler_overrun_flag :=
      iterate_pass_flag _ s
    generalize dispatchPass^[t + 1] s = s1 at hfl
    obtain ⟨tasks1, tick1, flag1, past1, calls1⟩ := s1
    simp only [List.replicate, runEvents, List.foldl, step, mainStep]

/-! ## Registration: `sch_add_task` -/

/-- C1. For every table state, handle, DELAY and PERIOD, `sch_add_task`
returns `EXIT_SUCCESS` if and only if the table has at least one unoccupied
slot and `PERIOD > 0`, and returns `EXIT_FAILURE` in every other case. -/
theorem sch_add_task_success_iff (pTask DELAY PERIOD : Nat) (s : Sched) :
    ((sch_add_task pTask DELAY PERIOD s).1 = EXIT_SUCCESS ↔
      (hasFreeSlot s ∧ 0 < PERIOD)) ∧
    ((sch_add_task pTask DELAY PERIOD s).1 = EXIT_FAILURE ↔
      ¬ (hasFreeSlot s ∧ 0 < PERIOD)) := by
  have hfree : hasFreeSlot s ↔ scanGap s 0 ≠ SCH_MAX_TASKS s := by
    rw [Ne, scanGap_eq_max_iff]
    unfold hasFreeSlot tableFull
    push_neg
    rfl
  have hiff := sch_add_task_ok_iff pTask DELAY PERIOD s
  have hret := sch_add_task_ret pTask DELAY PERIOD s
  have hne : EXIT_SUCCESS ≠ EXIT_FAILURE := by decide
  rw [hfree, Nat.pos_iff_ne_zero]
  refine ⟨hiff, ?_⟩
  rw [← hiff]
  constructor
  · intro h1 h2
    rw [h1] at h2
    exact hne h2.symm
  · intro h1
    rcases hret with h | h
    · exact absurd h h1
    · exact h

/-- C2. When `sch_add_task` returns success, the slot `k` it writes is the
lowest-indexed slot that was unoccupied before the call; afterwards slot `k`
holds the given handle, `DELAY + 1` (modulo `2 ^ 32`) and the given period,
the array has the same size, and every other slot is exactly as before. -/
theorem sch_add_task_claims_first_free (pTask DELAY PERIOD : Nat) (s : Sched)
    (hok : (sch_add_task pTask DELAY PERIOD s).1 = EXIT_SUCCESS) :
    ∃ k, k < SCH_MAX_TASKS s ∧ ¬ occupied (readSlot s k) ∧
      (∀ j, j < k → occupied (readSlot s j)) ∧
      readSlot (sch_add_task pTask DELAY PERIOD s).2 k
        = ⟨pTask, (DELAY + 1) % 2 ^ 32, PERIOD⟩ ∧
      SCH_MAX_TASKS (sch_add_task pTask DELAY PERIOD s).2 = SCH_MAX_TASKS s ∧
      (∀ j, j ≠ k → readSlot (sch_add_task pTask DELAY PERIOD s).2 j = readSlot s j) := by
  obtain ⟨hgap, hp⟩ := (sch_add_task_ok_iff pTask DELAY PERIOD s).1 hok
  obtain ⟨h1, h2, h3⟩ := scanGap_zero s
  have hlt : scanGap s 0 < SCH_MAX_TASKS s := by omega
  rw [sch_add_task_ok pTask DELAY PERIOD s hgap hp]
  refine ⟨scanGap s 0, hlt, h3 hlt, h2, ?_, ?_, ?_⟩
  · exact getD_set_same _ _ _ _ hlt
  · simp [SCH_MAX_TASKS]
  · intro j hj
    exact getD_set_other _ _ _ _ _ (Ne.symm hj)

theorem sch_add_task_claims_first_free_witness :
    (sch_add_task 7 2 3 tbl3).1 = EXIT_SUCCESS ∧
    ∃ k, k < SCH_MAX_TASKS tbl3 ∧ ¬ occupied (readSlot tbl3 k) ∧
      (∀ j, j < k → occupied (readSlot tbl3 j)) ∧
      readSlot (sch_add_task 7 2 3 tbl3).2 k = ⟨7, (2 + 1) % 2 ^ 32, 3⟩ ∧
      SCH_MAX_TASKS (sch_add_task 7 2 3 tbl3).2 = SCH_MAX_TASKS tbl3 ∧
      (∀ j, j ≠ k → readSlot (sch_add_task 7 2 3 tbl3).2 j = readSlot tbl3 j) :=
  have h : (sch_add_task 7 2 3 tbl3).1 = EXIT_SUCCESS := by
    simp [sch_add_task, scanGap, readSlot, tbl3, SCH_NULL_PTR, SCH_MAX_TASKS]
  ⟨h, sch_add_task_claims_first_free 7 2 3 tbl3 h⟩

/-- C4. For every table state, handle and DELAY, `sch_add_task` with
`PERIOD == 0` returns `EXIT_FAILURE` and leaves the whole state, hence every
slot of the task table, unchanged. -/
theorem sch_add_task_zero_period (pTask DELAY : Nat) (s : Sched) :
    (sch_add_task pTask DELAY 0 s).1 = EXIT_FAILURE ∧
    (sch_add_task pTask DELAY 0 s).2 = s := by
  rw [sch_add_task_zero]
  exact ⟨rfl, rfl⟩

/-- C5. When all `SCH_MAX_TASKS` slots are occupied, `sch_add_task` returns
`EXIT_FAILURE` for every handle, DELAY and PERIOD and leaves the whole state,
hence every slot of the task table, unchanged. -/
theorem sch_add_task_table_full (pTask DELAY PERIOD : Nat) (s : Sched)
    (hfull : tableFull s) :
    (sch_add_task pTask DELAY PERIOD s).1 = EXIT_FAILURE ∧
    (sch_add_task pTask DELAY PERIOD s).2 = s := by
  rw [sch_add_task_full pTask DELAY PERIOD s ((scanGap_eq_max_iff s).2 hfull)]
  exact ⟨rfl, rfl⟩

theorem sch_add_task_table_full_witness :
    tableFull full2 ∧
    (sch_add_task 7 2 3 full2).1 = EXIT_FAILURE ∧ (sch_add_task 7 2 3 full2).2 = full2 :=
  have h : tableFull full2 := by
    intro i hi
    have hi2 : i < 2 := hi
    interval_cases i <;> decide
  ⟨h, sch_add_task_table_full 7 2 3 full2 h⟩

/-- C6, counterexample. A call on a full table with `PERIOD = 3`, a call with
`PERIOD = 0` on a table with a free slot and a call with `PERIOD = 0` on a full
table all return the same value `EXIT_FAILURE`: the result does not tell the
two reasons apart. -/
theorem sch_add_task_same_failure_value :
    tableFull full2 ∧ hasFreeSlot tbl3 ∧
    (sch_add_task 7 2 3 full2).1 = EXIT_FAILURE ∧
    (sch_add_task 7 2 0 tbl3).1 = EXIT_FAILURE ∧
    (sch_add_task 7 2 0 full2).1 = EXIT_FAILURE ∧
    (sch_add_task 7 2 3 full2).1 = (sch_add_task 7 2 0 tbl3).1 := by
  have hfull : tableFull full2 := by
    intro i hi
    have hi2 : i < 2 := hi
    interval_cases i <;> decide
  have hfree : hasFreeSlot tbl3 := ⟨1, by decide, by decide⟩
  have h1 : (sch_add_task 7 2 3 full2).1 = EXIT_FAILURE := by
    rw [sch_add_task_full 7 2 3 full2 ((scanGap_eq_max_iff full2).2 hfull)]
  have h2 : (sch_add_task 7 2 0 tbl3).1 = EXIT_FAILURE := by rw [sch_add_task_zero]
  have h3 : (sch_add_task 7 2 0 full2).1 = EXIT_FAILURE := by rw [sch_add_task_zero]
  exact ⟨hfull, hfree, h1, h2, h3, h1.trans h2.symm⟩

/-- C6, amended. `sch_add_task` has exactly two results: it returns
`EXIT_FAILURE` if and only if the table is full or `PERIOD == 0`, it returns
`EXIT_SUCCESS` otherwise, and the two values differ; the failure value is the
same for both reasons. -/
theorem sch_add_task_failure_value (pTask DELAY PERIOD : Nat) (s : Sched) :
    ((sch_add_task pTask DELAY PERIOD s).1 = EXIT_FAILURE ↔ (tableFull s ∨ PERIOD = 0)) ∧
    ((sch_add_task pTask DELAY PERIOD s).1 = EXIT_FAILURE ∨
      (sch_add_task pTask DELAY PERIOD s).1 = EXIT_SUCCESS) ∧
    EXIT_FAILURE ≠ EXIT_SUCCESS :=
  ⟨sch_add_task_fail_iff pTask DELAY PERIOD s,
    (sch_add_task_ret pTask DELAY PERIOD s).symm, by decide⟩

/-- C3. Starting from the table left by `sch_init_hz`, for every sequence
of `sch_add_task` calls with non-null handles that all return success: the
number of calls is at most `SCH_MAX_TASKS`; the call number `i + 1` finds slot
`i` unoccupied, installs its descriptor there and changes no other slot; and
after all the calls exactly the slots below the number of calls are occupied
and slot `j` holds the descriptor of call number `j + 1`. -/
theorem sch_add_task_sequence_first_fit (hz : Nat) (s0 : Sched) (reqs : List Req)
    (hnn : ∀ r, r ∈ reqs → r.pTask ≠ SCH_NULL_PTR)
    (hok : ∀ i (hi : i < reqs.length),
      (sch_add_task reqs[i].pTask reqs[i].DELAY reqs[i].PERIOD
        (addTasks (reqs.take i) (sch_init_hz hz s0))).1 = EXIT_SUCCESS) :
    reqs.length ≤ SCH_MAX_TASKS s0 ∧
    (∀ i (hi : i < reqs.length),
      ¬ occupied (readSlot (addTasks (reqs.take i) (sch_init_hz hz s0)) i) ∧
      readSlot (addTasks (reqs.take (i + 1)) (sch_init_hz hz s0)) i = reqs[i].desc ∧
      ∀ j, j ≠ i →
        readSlot (addTasks (reqs.take (i + 1)) (sch_init_hz hz s0)) j
          = readSlot (addTasks (reqs.take i) (sch_init_hz hz s0)) j) ∧
    (∀ j, j < SCH_MAX_TASKS s0 →
      (occupied (readSlot (addTasks reqs (sch_init_hz hz s0)) j) ↔ j < reqs.length)) ∧
    (∀ j (hj : j < reqs.length),
      readSlot (addTasks reqs (sch_init_hz hz s0)) j = reqs[j].desc) := by
  have hN := sch_init_hz_len hz s0
  have hempty : ∀ j, j < SCH_MAX_TASKS (sch_init_hz hz s0) →
      ¬ occupied (readSlot (sch_init_hz hz s0) j) := by
    intro j hj
    exact sch_init_hz_empty hz s0 j (by rw [← hN]; exact hj)
  have inv := addTasks_prefix_inv reqs (sch_init_hz hz s0) hempty hnn hok
  obtain ⟨f1, _, f3, f4, _⟩ := inv reqs.length (le_refl _)
  rw [List.take_length] at f3 f4
  refine ⟨by rw [← hN]; exact f1, ?_, ?_, ?_⟩
  · intro i hi
    obtain ⟨a1, _, a3, a4, a5⟩ := inv i (by omega)
    obtain ⟨b1, _, _, b4, b5⟩ := inv (i + 1) (by omega)
    refine ⟨?_, b4 i hi (by omega), ?_⟩
    · intro h
      exact absurd ((a3 i (by omega)).1 h) (by omega)
    · intro j hj
      rcases Nat.lt_or_gt_of_ne hj with h | h
      · by_cases hjl : j < reqs.length
        · rw [b4 j hjl (by omega), a4 j hjl h]
        · omega
      · rw [b5 j (by omega), a5 j (by omega)]
  · intro j hj
    exact f3 j (by rw [hN]; exact hj)
  · intro j hj
    exact f4 j hj hj

theorem sch_add_task_sequence_first_fit_witness :
    (∀ r, r ∈ reqs2 → r.pTask ≠ SCH_NULL_PTR) ∧
    (∀ i (hi : i < reqs2.length),
      (sch_add_task reqs2[i].pTask reqs2[i].DELAY reqs2[i].PERIOD
        (addTasks (reqs2.take i) (sch_init_hz 1000 tbl3))).1 = EXIT_SUCCESS) ∧
    reqs2.length ≤ SCH_MAX_TASKS tbl3 ∧
    (∀ j (hj : j < reqs2.length),
      readSlot (addTasks reqs2 (sch_init_hz 1000 tbl3)) j = reqs2[j].desc) :=
  have h1 : ∀ r, r ∈ reqs2 → r.pTask ≠ SCH_NULL_PTR := by
    intro r hr
    simp [reqs2] at hr
    rcases hr with h | h <;> subst h <;> decide
  have h2 : ∀ i (hi : i < reqs2.length),
      (sch_add_task reqs2[i].pTask reqs2[i].DELAY reqs2[i].PERIOD
        (addTasks (reqs2.take i) (sch_init_hz 1000 tbl3))).1 = EXIT_SUCCESS := by
    intro i hi
    have hi2 : i < 2 := hi
    have hinit : sch_init_hz 1000 tbl3 =
        ⟨[⟨0, 3, 4⟩, ⟨0, 9, 9⟩, ⟨0, 0, 0⟩], 0, false, ⟨0, 0, 0⟩, []⟩ := by decide
    have hfirst : (sch_add_task 7 2 3
          ⟨[⟨0, 3, 4⟩, ⟨0, 9, 9⟩, ⟨0, 0, 0⟩], 0, false, ⟨0, 0, 0⟩, []⟩).2 =
        ⟨[⟨7, 3, 3⟩, ⟨0, 9, 9⟩, ⟨0, 0, 0⟩], 0, false, ⟨0, 0, 0⟩, []⟩ := by
      simp [sch_add_task, scanGap, readSlot, SCH_NULL_PTR, SCH_MAX_TASKS]
    rw [sch_add_task_ok_iff]
    interval_cases i
    · simp [hinit, addTasks, reqs2, scanGap, readSlot, SCH_NULL_PTR, SCH_MAX_TASKS]
    · simp only [reqs2, addTasks, hinit, List.take_succ_cons, List.take_zero, List.foldl_cons,
        List.foldl_nil, hfirst]
      simp [reqs2, scanGap, readSlot, SCH_NULL_PTR, SCH_MAX_TASKS]
  let t := sch_add_task_sequence_first_fit 1000 tbl3 reqs2 h1 h2
  ⟨h1, h2, t.1, t.2.2.2⟩

/-! ## The dispatcher: `sch_dispatch_tasks` -/

/-- C9, counterexample. The table reached from `tbl3` by
`sch_add_task(7, 2 ^ 32 - 1, 3)` has slot 1 occupied with a delay of 0. One
drain pass invokes no slot of it, and slot 1, which is occupied and was not
invoked, has the delay 4294967295 afterwards: its delay has not been reduced
by one. -/
theorem dispatchPass_delay_zero_wraps :
    (sch_add_task 7 4294967295 3 tbl3).2 = zeroDelayTbl ∧
    occupied (readSlot zeroDelayTbl 1) ∧
    (readSlot zeroDelayTbl 1).Delay = 0 ∧
    newCalls zeroDelayTbl (dispatchPass zeroDelayTbl) = [] ∧
    readSlot (dispatchPass zeroDelayTbl) 1 = ⟨7, 4294967295, 3⟩ ∧
    ¬ ((readSlot (dispatchPass zeroDelayTbl) 1).Delay + 1
        = (readSlot zeroDelayTbl 1).Delay) := by
  have hscan : scanGap tbl3 0 = 1 :=
    scanGap_eq_of_first_free tbl3 1 (by decide) (by decide)
      (fun j hj => by
        have : j = 0 := by omega
        subst this
        decide)
  have hcall := sch_add_task_ok 7 4294967295 3 tbl3 (by rw [hscan]; decide) (by decide)
  rw [hscan] at hcall
  refine ⟨by rw [hcall]; rfl, by decide, by decide, by decide, by decide, by decide⟩

/-- C9, amended. One drain pass over any table appends to the log exactly the
occupied slots whose delay reaches zero on the decrement, each with its own
handle, each once and in strictly ascending slot order. Afterwards every
invoked slot has its delay equal to its period; every occupied slot that was
not invoked has its delay decremented as a `uint32_t`: it is one less when the
delay was at least 1, and a delay of 0 wraps around to `2 ^ 32 - 1`.
Unoccupied slots, all handles, all periods and the size of the array are
unchanged. -/
theorem dispatchPass_runs_due_slots_in_order (s : Sched) :
    (dispatchPass s).calls = s.calls ++ newCalls s (dispatchPass s) ∧
    (∀ i h, (i, h) ∈ newCalls s (dispatchPass s) ↔
      i < SCH_MAX_TASKS s ∧ due (readSlot s i) ∧ h = (readSlot s i).pTask) ∧
    ((newCalls s (dispatchPass s)).map Prod.fst).Pairwise (· < ·) ∧
    (∀ i, i < SCH_MAX_TASKS s → due (readSlot s i) →
      readSlot (dispatchPass s) i = { readSlot s i with Delay := (readSlot s i).Period }) ∧
    (∀ i, i < SCH_MAX_TASKS s → occupied (readSlot s i) → ¬ due (readSlot s i) →
      readSlot (dispatchPass s) i
          = { readSlot s i with Delay := ((readSlot s i).Delay + 2 ^ 32 - 1) % 2 ^ 32 } ∧
      (1 ≤ (readSlot s i).Delay → (readSlot s i).Delay < 2 ^ 32 →
        (readSlot (dispatchPass s) i).Delay + 1 = (readSlot s i).Delay) ∧
      ((readSlot s i).Delay = 0 → (readSlot (dispatchPass s) i).Delay = 2 ^ 32 - 1)) ∧
    (∀ i, ¬ occupied (readSlot s i) → readSlot (dispatchPass s) i = readSlot s i) ∧
    (∀ i, (readSlot (dispatchPass s) i).pTask = (readSlot s i).pTask ∧
      (readSlot (dispatchPass s) i).Period = (readSlot s i).Period) ∧
    SCH_MAX_TASKS (dispatchPass s) = SCH_MAX_TASKS s := by
  have hslot : ∀ i, readSlot (dispatchPass s) i
      = if i < SCH_MAX_TASKS s then stepTask (readSlot s i) else readSlot s i := by
    intro i
    by_cases hi : i < SCH_MAX_TASKS s
    · rw [if_pos hi, dispatchPass_slot s i hi]
    · rw [if_neg hi, dispatchPass_slot_beyond s i (by omega)]
  refine ⟨?_, ?_, ?_, ?_, ?_, ?_, ?_, dispatchPass_len s⟩
  · rw [newCalls_dispatchPass, ← dispatchPass_calls]
  · intro i h
    rw [newCalls_dispatchPass]
    simp only [List.mem_map, List.mem_filter, List.mem_range, decide_eq_true_eq,
      Prod.mk.injEq]
    constructor
    · rintro ⟨a, ⟨ha1, ha2⟩, rfl, rfl⟩
      exact ⟨ha1, ha2, rfl⟩
    · rintro ⟨h1, h2, rfl⟩
      exact ⟨i, ⟨h1, h2⟩, rfl, rfl⟩
  · rw [newCalls_dispatchPass_fst]
    exact List.Pairwise.filter _ (List.pairwise_lt_range _)
  · intro i hi hd
    rw [hslot, if_pos hi, stepTask_due _ hd]
  · intro i hi ho hd
    rw [hslot, if_pos hi, stepTask_waiting _ ho hd]
    refine ⟨rfl, ?_, ?_⟩
    · intro h1 h2
      show ((readSlot s i).Delay + 2 ^ 32 - 1) % 2 ^ 32 + 1 = (readSlot s i).Delay
      omega
    · intro h0
      show ((readSlot s i).Delay + 2 ^ 32 - 1) % 2 ^ 32 = 2 ^ 32 - 1
      omega
  · intro i ho
    rw [hslot]
    split_ifs
    · exact stepTask_free _ ho
    · rfl
  · intro i
    rw [hslot]
    split_ifs
    · exact ⟨stepTask_pTask _, stepTask_Period _⟩
    · exact ⟨rfl, rfl⟩

/-- C10. With a tick counter of `n` (a `uint32_t` value) and no tick
interrupt during the call, `sch_dispatch_tasks` returns after exactly `n`
drain passes over the table (the state is unchanged when `n = 0`), leaves the
tick counter at `0`, does not change the overrun latch, and returns a non-zero
value if and only if the latch is set. -/
theorem sch_dispatch_tasks_drains_backlog (s : Sched) (h : s.tick_count_g < 2 ^ 32) :
    (sch_dispatch_tasks s).2 = { dispatchPass^[s.tick_count_g] s with tick_count_g := 0 } ∧
    (s.tick_count_g = 0 → (sch_dispatch_tasks s).2 = s) ∧
    (sch_dispatch_tasks s).2.tick_count_g = 0 ∧
    (sch_dispatch_tasks s).2.scheduler_overrun_flag = s.scheduler_overrun_flag ∧
    ((sch_dispatch_tasks s).1 ≠ 0 ↔ s.scheduler_overrun_flag = true) := by
  have hw := dispatchWhile_eq s.tick_count_g s rfl h
  have hflag : (dispatchWhile s).scheduler_overrun_flag = s.scheduler_overrun_flag := by
    rw [hw]
    exact iterate_pass_flag _ s
  refine ⟨hw, ?_, ?_, hflag, ?_⟩
  · intro h0
    show dispatchWhile s = s
    rw [dispatchWhile_unfold, if_neg (by omega)]
  · show (dispatchWhile s).tick_count_g = 0
    rw [hw]
  · show (if (dispatchWhile s).scheduler_overrun_flag = true then (1 : Int) else 0) ≠ 0 ↔ _
    rw [hflag]
    cases s.scheduler_overrun_flag <;> simp

theorem sch_dispatch_tasks_drains_backlog_witness :
    ({ tbl3 with tick_count_g := 3 } : Sched).tick_count_g < 2 ^ 32 ∧
    (sch_dispatch_tasks { tbl3 with tick_count_g := 3 }).2
      = { dispatchPass^[3] { tbl3 with tick_count_g := 3 } with tick_count_g := 0 } ∧
    (sch_dispatch_tasks { tbl3 with tick_count_g := 3 }).2.tick_count_g = 0 :=
  have h : ({ tbl3 with tick_count_g := 3 } : Sched).tick_count_g < 2 ^ 32 := by decide
  let t := sch_dispatch_tasks_drains_backlog { tbl3 with tick_count_g := 3 } h
  ⟨h, t.1, t.2.2.1⟩

/-! ## The firing schedule -/

/-- C7. A task registered successfully with a non-null handle, an initial
delay `D` and a period `P > 0` (both `uint32_t` values) sits in a slot `k`
which, in the drain passes that follow, is not invoked on passes `1 .. D`, is
invoked on pass `D + 1` (when exactly `D` ticks have been drained) and then
exactly on every `P`-th pass, once per such pass and always with the
registered handle; during the first `n` passes it is invoked
`(n - D - 1) / P + 1` times (`0` times when `n ≤ D`), and the same count holds
after `sch_start` when the `n` ticks arrive in any split over several
`sch_dispatch_tasks` calls. -/
theorem registered_task_firing_schedule (s : Sched) (pTask D P : Nat)
    (hh : pTask ≠ SCH_NULL_PTR) (hD : D < 2 ^ 32) (hP0 : 0 < P) (hP : P < 2 ^ 32)
    (hok : (sch_add_task pTask D P s).1 = EXIT_SUCCESS) :
    ∃ k, k < SCH_MAX_TASKS s ∧
      readSlot (sch_add_task pTask D P s).2 k = ⟨pTask, (D + 1) % 2 ^ 32, P⟩ ∧
      (∀ m, invocations k
          (newCalls (dispatchPass^[m] (sch_add_task pTask D P s).2)
            (dispatchPass^[m + 1] (sch_add_task pTask D P s).2))
          = if D ≤ m ∧ (m - D) % P = 0 then 1 else 0) ∧
      (∀ m x, (k, x) ∈ newCalls (dispatchPass^[m] (sch_add_task pTask D P s).2)
            (dispatchPass^[m + 1] (sch_add_task pTask D P s).2) → x = pTask) ∧
      (∀ n, firedAfter (sch_add_task pTask D P s).2 k n
          = if n ≤ D then 0 else (n - D - 1) / P + 1) ∧
      (∀ (L : Nat) (ns : List Nat), (∀ n, n ∈ ns → n < 2 ^ 32) →
        invocations k (newCalls (sch_add_task pTask D P s).2
            (mainLoop L ns (sch_start (sch_add_task pTask D P s).2)))
          = if ns.sum ≤ D then 0 else (ns.sum - D - 1) / P + 1) := by
  obtain ⟨hgap, hp⟩ := (sch_add_task_ok_iff pTask D P s).1 hok
  obtain ⟨h1, _, _⟩ := scanGap_zero s
  have hlt : scanGap s 0 < SCH_MAX_TASKS s := by omega
  have hstate := sch_add_task_ok pTask D P s hgap hp
  have hN : SCH_MAX_TASKS (sch_add_task pTask D P s).2 = SCH_MAX_TASKS s := by
    rw [hstate]; simp only [SCH_MAX_TASKS, List.length_set]
  have hslot : readSlot (sch_add_task pTask D P s).2 (scanGap s 0)
      = ⟨pTask, (D + 1) % 2 ^ 32, P⟩ := by
    rw [hstate]; exact getD_set_same _ _ _ _ hlt
  have hk : scanGap s 0 < SCH_MAX_TASKS (sch_add_task pTask D P s).2 := by
    rw [hN]; exact hlt
  have htotal := invocations_after _ (scanGap s 0) pTask D P hk hslot hh hD hP0 hP
  refine ⟨scanGap s 0, hlt, hslot,
    invocations_on_pass _ _ pTask D P hk hslot hh hD hP0 hP,
    invoked_handle _ _ pTask D P hk hslot hh hD hP0 hP, htotal, ?_⟩
  intro L ns hns
  unfold newCalls
  rw [(mainLoop_calls L ns _ hns).1]
  exact htotal ns.sum

theorem registered_task_firing_schedule_witness :
    (7 ≠ SCH_NULL_PTR ∧ 2 < 2 ^ 32 ∧ 0 < 3 ∧ 3 < 2 ^ 32 ∧
      (sch_add_task 7 2 3 tbl3).1 = EXIT_SUCCESS) ∧
    ∃ k, k < SCH_MAX_TASKS tbl3 ∧
      ∀ n, firedAfter (sch_add_task 7 2 3 tbl3).2 k n
        = if n ≤ 2 then 0 else (n - 2 - 1) / 3 + 1 :=
  have h1 : (7 : Nat) ≠ SCH_NULL_PTR := by decide
  have h2 : (sch_add_task 7 2 3 tbl3).1 = EXIT_SUCCESS := by
    simp [sch_add_task, scanGap, readSlot, tbl3, SCH_NULL_PTR, SCH_MAX_TASKS]
  ⟨⟨h1, by norm_num, by norm_num, by norm_num, h2⟩,
    (registered_task_firing_schedule tbl3 7 2 3 h1 (by norm_num) (by norm_num)
      (by norm_num) h2).imp (fun _ hk => ⟨hk.1, hk.2.2.2.2.1⟩)⟩

/-- C8, counterexample. In the example of the specification (capacity 4, `A`
registered with delay 1 and period 10 in slot 0, `B` with delay 0 and period 5
in slot 1), after 1 drained tick `A` has not fired at all, and `A` has fired
only once after 10 and after 11 drained ticks: its second firing is on the
12th pass. So "after 1 drained tick A and B have each fired exactly once" and
"A's second firing happens when 10 ticks have been drained" both fail. -/
theorem specExample_counterexample :
    SCH_MAX_TASKS tbl4 = 4 ∧
    firedAfter (specExample 1000 tbl4 100 200) 0 1 = 0 ∧
    firedAfter (specExample 1000 tbl4 100 200) 1 1 = 1 ∧
    firedAfter (specExample 1000 tbl4 100 200) 0 9 = 1 ∧
    firedAfter (specExample 1000 tbl4 100 200) 0 10 = 1 ∧
    firedAfter (specExample 1000 tbl4 100 200) 0 11 = 1 ∧
    firedAfter (specExample 1000 tbl4 100 200) 0 12 = 2 ∧
    ¬ (firedAfter (specExample 1000 tbl4 100 200) 0 1 = 1 ∧
        firedAfter (specExample 1000 tbl4 100 200) 1 1 = 1) ∧
    ¬ (firedAfter (specExample 1000 tbl4 100 200) 0 10 = 2) := by
  have c := specExample_counts 1000 tbl4 100 200 rfl (by decide) (by decide)
  have a1 := (c 1).1
  have b1 := (c 1).2
  have a9 := (c 9).1
  have a10 := (c 10).1
  have a11 := (c 11).1
  have a12 := (c 12).1
  norm_num at a1 b1 a9 a10 a11 a12
  refine ⟨rfl, a1, b1, a9, a10, a11, a12, ?_, ?_⟩
  · rw [a1]; rintro ⟨h, _⟩; exact absurd h (by decide)
  · rw [a10]; decide

/-- C8, amended. With capacity 4 and the table cleared by `sch_init_hz`, after
`sch_add_task(A, 1, 10)` and `sch_add_task(B, 0, 5)` (both succeed): after 1
drained tick `B` has fired exactly once and `A` not yet; after 2 drained ticks
`A` and `B` have each fired exactly once; after 6 drained ticks in total `B`
has fired a second time and `A` has not fired again; and `A` fires for the
second time on the 12th pass (once after 11 drained ticks, twice after 12). -/
theorem specExample_firings (hz : Nat) (s0 : Sched) (A B : Nat)
    (h4 : SCH_MAX_TASKS s0 = 4) (hA : A ≠ SCH_NULL_PTR) (hB : B ≠ SCH_NULL_PTR) :
    (sch_add_task A 1 10 (sch_init_hz hz s0)).1 = EXIT_SUCCESS ∧
    (sch_add_task B 0 5 (sch_add_task A 1 10 (sch_init_hz hz s0)).2).1 = EXIT_SUCCESS ∧
    firedAfter (specExample hz s0 A B) 0 1 = 0 ∧
    firedAfter (specExample hz s0 A B) 1 1 = 1 ∧
    firedAfter (specExample hz s0 A B) 0 2 = 1 ∧
    firedAfter (specExample hz s0 A B) 1 2 = 1 ∧
    firedAfter (specExample hz s0 A B) 1 6 = 2 ∧
    firedAfter (specExample hz s0 A B) 0 6 = 1 ∧
    firedAfter (specExample hz s0 A B) 0 11 = 1 ∧
    firedAfter (specExample hz s0 A B) 0 12 = 2 := by
  obtain ⟨ok1, ok2, _, _, _⟩ := specExample_slots hz s0 A B h4 hA
  have c := specExample_counts hz s0 A B h4 hA hB
  have a1 := (c 1).1
  have b1 := (c 1).2
  have a2 := (c 2).1
  have b2 := (c 2).2
  have b6 := (c 6).2
  have a6 := (c 6).1
  have a11 := (c 11).1
  have a12 := (c 12).1
  norm_num at a1 b1 a2 b2 b6 a6 a11 a12
  exact ⟨ok1, ok2, a1, b1, a2, b2, b6, a6, a11, a12⟩

theorem specExample_firings_witness :
    (SCH_MAX_TASKS tbl4 = 4 ∧ 100 ≠ SCH_NULL_PTR ∧ 200 ≠ SCH_NULL_PTR) ∧
    firedAfter (specExample 50 tbl4 100 200) 0 1 = 0 ∧
    firedAfter (specExample 50 tbl4 100 200) 1 1 = 1 ∧
    firedAfter (specExample 50 tbl4 100 200) 0 2 = 1 ∧
    firedAfter (specExample 50 tbl4 100 200) 0 12 = 2 :=
  have h4 : SCH_MAX_TASKS tbl4 = 4 := rfl
  have hA : (100 : Nat) ≠ SCH_NULL_PTR := by decide
  have hB : (200 : Nat) ≠ SCH_NULL_PTR := by decide
  let t := specExample_firings 50 tbl4 100 200 h4 hA hB
  ⟨⟨h4, hA, hB⟩, t.2.2.1, t.2.2.2.1, t.2.2.2.2.1, t.2.2.2.2.2.2.2.2.2⟩

/-! ## Tick handler, start, initialisation, stored delay -/

/-- C11. One call of `sch_tick_handler` replaces the tick counter by its
successor modulo `2 ^ 32`, leaves the task table and the log unchanged, and
leaves the overrun latch set if and only if it was set before or the
incremented counter is greater than `SCH_TICK_COUNT_LIMIT`. -/
theorem sch_tick_handler_effect (SCH_TICK_COUNT_LIMIT : Nat) (s : Sched) :
    (sch_tick_handler SCH_TICK_COUNT_LIMIT s).tick_count_g = (s.tick_count_g + 1) % 2 ^ 32 ∧
    (sch_tick_handler SCH_TICK_COUNT_LIMIT s).sch_tasks_g = s.sch_tasks_g ∧
    (sch_tick_handler SCH_TICK_COUNT_LIMIT s).calls = s.calls ∧
    ((sch_tick_handler SCH_TICK_COUNT_LIMIT s).scheduler_overrun_flag = true ↔
      s.scheduler_overrun_flag = true ∨
        (s.tick_count_g + 1) % 2 ^ 32 > SCH_TICK_COUNT_LIMIT) := by
  unfold sch_tick_handler
  dsimp only
  split_ifs with h
  · exact ⟨rfl, rfl, rfl, ⟨fun _ => Or.inr h, fun _ => rfl⟩⟩
  · refine ⟨rfl, rfl, rfl, ?_⟩
    constructor
    · intro hf; exact Or.inl hf
    · rintro (hf | hf)
      · exact hf
      · exact absurd hf h

/-- C13. After `sch_start` the tick counter is `0` and the overrun latch is
false, whatever they were before, and the task table is unchanged. -/
theorem sch_start_effect (s : Sched) :
    (sch_start s).tick_count_g = 0 ∧
    (sch_start s).scheduler_overrun_flag = false ∧
    (sch_start s).sch_tasks_g = s.sch_tasks_g ∧
    (sch_start s).calls = s.calls :=
  ⟨rfl, rfl, rfl, rfl⟩

/-- C15, counterexample. With the `uint32_t` value `DELAY = 2 ^ 32 - 1` the
call `sch_add_task(7, DELAY, 3)` on a table whose lowest free slot is slot 1
succeeds and stores the delay `0` in slot 1: the stored delay is neither
`DELAY + 1` nor at least 1. -/
theorem sch_add_task_delay_wraps :
    (4294967295 : Nat) < 2 ^ 32 ∧
    (sch_add_task 7 4294967295 3 tbl3).1 = EXIT_SUCCESS ∧
    occupied (readSlot tbl3 0) ∧ ¬ occupied (readSlot tbl3 1) ∧
    readSlot (sch_add_task 7 4294967295 3 tbl3).2 1 = ⟨7, 0, 3⟩ ∧
    ¬ (1 ≤ (readSlot (sch_add_task 7 4294967295 3 tbl3).2 1).Delay) := by
  have hscan : scanGap tbl3 0 = 1 :=
    scanGap_eq_of_first_free tbl3 1 (by decide) (by decide)
      (fun j hj => by
        have : j = 0 := by omega
        subst this
        decide)
  have hcall := sch_add_task_ok 7 4294967295 3 tbl3 (by rw [hscan]; decide) (by decide)
  rw [hscan] at hcall
  have hslot : readSlot (sch_add_task 7 4294967295 3 tbl3).2 1 = ⟨7, 0, 3⟩ := by
    rw [hcall]; rfl
  refine ⟨by norm_num, by rw [hcall], by decide, by decide, hslot, ?_⟩
  rw [hslot]
  decide

/-- C15, amended. For every `uint32_t` value `DELAY`, a successful
`sch_add_task` stores in the claimed slot (the lowest unoccupied one) the
delay `(DELAY + 1) mod 2 ^ 32`: this is `DELAY + 1`, hence at least 1, when
`DELAY < 2 ^ 32 - 1`, and it is `0` when `DELAY = 2 ^ 32 - 1`. -/
theorem sch_add_task_stored_delay (pTask DELAY PERIOD : Nat) (s : Sched)
    (hD : DELAY < 2 ^ 32)
    (hok : (sch_add_task pTask DELAY PERIOD s).1 = EXIT_SUCCESS) :
    ∃ k, k < SCH_MAX_TASKS s ∧ ¬ occupied (readSlot s k) ∧
      (∀ j, j < k → occupied (readSlot s j)) ∧
      (readSlot (sch_add_task pTask DELAY PERIOD s).2 k).Delay = (DELAY + 1) % 2 ^ 32 ∧
      (DELAY < 2 ^ 32 - 1 →
        (readSlot (sch_add_task pTask DELAY PERIOD s).2 k).Delay = DELAY + 1 ∧
        1 ≤ (readSlot (sch_add_task pTask DELAY PERIOD s).2 k).Delay) ∧
      (DELAY = 2 ^ 32 - 1 →
        (readSlot (sch_add_task pTask DELAY PERIOD s).2 k).Delay = 0) := by
  obtain ⟨h1, _, h3, h4, _, h6, _⟩ := sch_add_task_success_slot pTask DELAY PERIOD s hok
  refine ⟨scanGap s 0, h1, h3, h4, ?_, ?_, ?_⟩
  · rw [h6]
  · intro hlt
    rw [h6]
    show (DELAY + 1) % 2 ^ 32 = DELAY + 1 ∧ 1 ≤ (DELAY + 1) % 2 ^ 32
    omega
  · intro heq
    rw [h6]
    show (DELAY + 1) % 2 ^ 32 = 0
    omega

theorem sch_add_task_stored_delay_witness :
    ((2 : Nat) < 2 ^ 32 ∧ (sch_add_task 7 2 3 tbl3).1 = EXIT_SUCCESS) ∧
    ∃ k, k < SCH_MAX_TASKS tbl3 ∧
      (readSlot (sch_add_task 7 2 3 tbl3).2 k).Delay = (2 + 1) % 2 ^ 32 :=
  have h : (sch_add_task 7 2 3 tbl3).1 = EXIT_SUCCESS := by
    simp [sch_add_task, scanGap, readSlot, tbl3, SCH_NULL_PTR, SCH_MAX_TASKS]
  ⟨⟨by norm_num, h⟩,
    (sch_add_task_stored_delay 7 2 3 tbl3 (by norm_num) h).imp
      (fun _ hk => ⟨hk.1, hk.2.2.2.1⟩)⟩

/-- C16. Whatever the table was before, after `sch_init_hz` the array has
the same size and every slot has the null handle, so no slot is occupied; a
following `sch_add_task` that returns success writes its descriptor to slot 0
and changes no other slot. -/
theorem sch_init_hz_clears_table (TICKhz : Nat) (s : Sched) :
    SCH_MAX_TASKS (sch_init_hz TICKhz s) = SCH_MAX_TASKS s ∧
    (∀ i, i < SCH_MAX_TASKS s → (readSlot (sch_init_hz TICKhz s) i).pTask = SCH_NULL_PTR) ∧
    (∀ i, i < SCH_MAX_TASKS s → ¬ occupied (readSlot (sch_init_hz TICKhz s) i)) ∧
    (∀ pTask DELAY PERIOD,
      (sch_add_task pTask DELAY PERIOD (sch_init_hz TICKhz s)).1 = EXIT_SUCCESS →
      readSlot (sch_add_task pTask DELAY PERIOD (sch_init_hz TICKhz s)).2 0
        = ⟨pTask, (DELAY + 1) % 2 ^ 32, PERIOD⟩ ∧
      ∀ j, j ≠ 0 →
        readSlot (sch_add_task pTask DELAY PERIOD (sch_init_hz TICKhz s)).2 j
          = readSlot (sch_init_hz TICKhz s) j) := by
  have hN := sch_init_hz_len TICKhz s
  refine ⟨hN, ?_, fun i hi => sch_init_hz_empty TICKhz s i hi, ?_⟩
  · intro i hi
    rw [sch_init_hz_slot TICKhz s i hi]
  · intro pTask DELAY PERIOD hok
    obtain ⟨h1, _, _, _, _, h6, h7⟩ :=
      sch_add_task_success_slot pTask DELAY PERIOD (sch_init_hz TICKhz s) hok
    have hscan : scanGap (sch_init_hz TICKhz s) 0 = 0 :=
      scanGap_eq_of_first_free _ 0 (by omega)
        (sch_init_hz_empty TICKhz s 0 (by omega)) (fun j hj => absurd hj (by omega))
    rw [hscan] at h6 h7
    exact ⟨h6, h7⟩

/-! ## Invariants of the task table -/

/-- C14. In every state reached from the table left by `sch_init_hz` by any
sequence of `sch_add_task`, `sch_start`, `sch_tick_handler` and
`sch_dispatch_tasks` calls (and single drain passes), every occupied slot has
a period greater than zero. -/
theorem periodsPositive_reachable (SCH_TICK_COUNT_LIMIT TICKhz : Nat) (s0 : Sched)
    (ops : List Op) :
    periodsPositive (runOps SCH_TICK_COUNT_LIMIT ops (sch_init_hz TICKhz s0)) := by
  obtain ⟨hN, hQ⟩ := runOps_slotwise SCH_TICK_COUNT_LIMIT
    (fun t => occupied t → 0 < t.Period)
    (fun t ht hocc => by
      unfold occupied at hocc ht
      rw [stepTask_pTask] at hocc
      rw [stepTask_Period]
      exact ht hocc)
    ops (sch_init_hz TICKhz s0)
    (fun h D P _ hP _ => Nat.pos_of_ne_zero hP)
    (fun i hi hocc => absurd hocc
      (sch_init_hz_empty TICKhz s0 i (by rw [← sch_init_hz_len TICKhz s0]; exact hi)))
  intro i hi
  exact hQ i (by rw [← hN]; exact hi)

/-- C20. If every registration uses an initial delay below `2 ^ 32 - 1`
(and a `uint32_t` period), then in every state reached from the table left by
`sch_init_hz` by `sch_add_task` calls and drain passes (and the other
scheduler calls) every occupied slot has a delay of at least 1, and the
`uint32_t` pre-decrement of that delay is the subtraction of one: it does not
wrap around. -/
theorem delaysArmed_reachable (SCH_TICK_COUNT_LIMIT TICKhz : Nat) (s0 : Sched)
    (ops : List Op) (hops : ∀ op, op ∈ ops → op.delayBelowMax) :
    delaysArmed (runOps SCH_TICK_COUNT_LIMIT ops (sch_init_hz TICKhz s0)) := by
  obtain ⟨hN, hQ⟩ := runOps_slotwise SCH_TICK_COUNT_LIMIT
    (fun t => occupied t →
      1 ≤ t.Delay ∧ t.Delay < 2 ^ 32 ∧ 1 ≤ t.Period ∧ t.Period < 2 ^ 32)
    (fun t ht hocc => by
      unfold occupied at hocc ht
      rw [stepTask_pTask] at hocc
      obtain ⟨h1, h2, h3, h4⟩ := ht hocc
      unfold stepTask
      rw [if_pos hocc]
      split_ifs with hz
      · exact ⟨h3, h4, h3, h4⟩
      · refine ⟨?_, ?_, h3, h4⟩
        · show 1 ≤ (t.Delay + 2 ^ 32 - 1) % 2 ^ 32
          omega
        · show (t.Delay + 2 ^ 32 - 1) % 2 ^ 32 < 2 ^ 32
          omega)
    ops (sch_init_hz TICKhz s0)
    (fun h D P hmem hP _ => by
      obtain ⟨hD, hPlt⟩ : D < 2 ^ 32 - 1 ∧ P < 2 ^ 32 := hops _ hmem
      refine ⟨?_, ?_, Nat.pos_of_ne_zero hP, hPlt⟩
      · show 1 ≤ (D + 1) % 2 ^ 32
        omega
      · show (D + 1) % 2 ^ 32 < 2 ^ 32
        omega)
    (fun i hi hocc => absurd hocc
      (sch_init_hz_empty TICKhz s0 i (by rw [← sch_init_hz_len TICKhz s0]; exact hi)))
  intro i hi hocc
  obtain ⟨h1, h2, _, _⟩ := hQ i (by rw [← hN]; exact hi) hocc
  refine ⟨h1, ?_⟩
  omega

theorem delaysArmed_reachable_witness :
    (∀ op, op ∈ opsEx → op.delayBelowMax) ∧
    delaysArmed (runOps 10 opsEx (sch_init_hz 1000 tbl4)) :=
  have h : ∀ op, op ∈ opsEx → op.delayBelowMax := by
    intro op hop
    simp only [opsEx, List.mem_cons, List.mem_singleton, List.mem_nil_iff, or_false] at hop
    rcases hop with h | h | h | h | h <;> subst h <;> simp [Op.delayBelowMax]
  ⟨h, delaysArmed_reachable 10 1000 tbl4 opsEx h⟩

/-- C19, counterexample. `sch_add_task` called with the null handle on a
table whose lowest free slot is slot 1 returns success and writes slot 1, but
the slot is unoccupied afterwards and the number of occupied slots has not
grown; the following `sch_add_task(9, 0, 5)` succeeds and claims slot 1
again. -/
theorem sch_add_task_null_handle :
    (sch_add_task SCH_NULL_PTR 2 3 tbl3).1 = EXIT_SUCCESS ∧
    readSlot (sch_add_task SCH_NULL_PTR 2 3 tbl3).2 1 = ⟨SCH_NULL_PTR, 3, 3⟩ ∧
    (∀ j, j ≠ 1 → readSlot (sch_add_task SCH_NULL_PTR 2 3 tbl3).2 j = readSlot tbl3 j) ∧
    ¬ occupied (readSlot (sch_add_task SCH_NULL_PTR 2 3 tbl3).2 1) ∧
    occupiedCount (sch_add_task SCH_NULL_PTR 2 3 tbl3).2 = occupiedCount tbl3 ∧
    (sch_add_task 9 0 5 (sch_add_task SCH_NULL_PTR 2 3 tbl3).2).1 = EXIT_SUCCESS ∧
    readSlot (sch_add_task 9 0 5 (sch_add_task SCH_NULL_PTR 2 3 tbl3).2).2 1 = ⟨9, 1, 5⟩ := by
  have hscan : scanGap tbl3 0 = 1 :=
    scanGap_eq_of_first_free tbl3 1 (by decide) (by decide)
      (fun j hj => by
        have : j = 0 := by omega
        subst this
        decide)
  have hcall := sch_add_task_ok SCH_NULL_PTR 2 3 tbl3 (by rw [hscan]; decide) (by decide)
  rw [hscan] at hcall
  have hst : (sch_add_task SCH_NULL_PTR 2 3 tbl3).2
      = ⟨[⟨5, 3, 4⟩, ⟨0, 3, 3⟩, ⟨0, 0, 0⟩], 0, false, ⟨0, 0, 0⟩, []⟩ := by
    rw [hcall]; rfl
  have hscan2 : scanGap (sch_add_task SCH_NULL_PTR 2 3 tbl3).2 0 = 1 := by
    rw [hst]
    exact scanGap_eq_of_first_free _ 1 (by decide) (by decide)
      (fun j hj => by
        have : j = 0 := by omega
        subst this
        decide)
  have hcall2 := sch_add_task_ok 9 0 5 (sch_add_task SCH_NULL_PTR 2 3 tbl3).2
    (by rw [hscan2, hst]; decide) (by decide)
  rw [hscan2, hst] at hcall2
  refine ⟨by rw [hcall], by rw [hst]; rfl, ?_, by rw [hst]; decide, by rw [hst]; decide,
    by rw [hst, hcall2], by rw [hst, hcall2]; rfl⟩
  intro j hj
  rw [hcall]
  exact getD_set_other _ _ _ _ _ (Ne.symm hj)

/-- C19, amended. A successful `sch_add_task` writes the given handle to a
slot `k` that was unoccupied and changes no other slot. For a non-null handle
slot `k` is occupied afterwards, the number of occupied slots has grown by
exactly one, and after any later operations slot `k` still holds the handle
and is not the slot the free-slot scan finds, so that no later `sch_add_task`
claims it. For the null handle slot `k` is still unoccupied, the number of
occupied slots is unchanged and the next scan finds slot `k` again. -/
theorem sch_add_task_occupies_slot (pTask DELAY PERIOD : Nat) (s : Sched)
    (hok : (sch_add_task pTask DELAY PERIOD s).1 = EXIT_SUCCESS) :
    ∃ k, k < SCH_MAX_TASKS s ∧ ¬ occupied (readSlot s k) ∧
      (readSlot (sch_add_task pTask DELAY PERIOD s).2 k).pTask = pTask ∧
      (∀ j, j ≠ k → readSlot (sch_add_task pTask DELAY PERIOD s).2 j = readSlot s j) ∧
      (pTask ≠ SCH_NULL_PTR →
        occupied (readSlot (sch_add_task pTask DELAY PERIOD s).2 k) ∧
        occupiedCount (sch_add_task pTask DELAY PERIOD s).2 = occupiedCount s + 1 ∧
        ∀ (L : Nat) (ops : List Op),
          (readSlot (runOps L ops (sch_add_task pTask DELAY PERIOD s).2) k).pTask = pTask ∧
          scanGap (runOps L ops (sch_add_task pTask DELAY PERIOD s).2) 0 ≠ k) ∧
      (pTask = SCH_NULL_PTR →
        ¬ occupied (readSlot (sch_add_task pTask DELAY PERIOD s).2 k) ∧
        occupiedCount (sch_add_task pTask DELAY PERIOD s).2 = occupiedCount s ∧
        scanGap (sch_add_task pTask DELAY PERIOD s).2 0 = k) := by
  obtain ⟨h1, _, h3, h4, h5, h6, h7⟩ := sch_add_task_success_slot pTask DELAY PERIOD s hok
  have hp : (readSlot (sch_add_task pTask DELAY PERIOD s).2 (scanGap s 0)).pTask = pTask := by
    rw [h6]
  refine ⟨scanGap s 0, h1, h3, hp, h7, ?_, ?_⟩
  · intro hnn
    have hocc : occupied (readSlot (sch_add_task pTask DELAY PERIOD s).2 (scanGap s 0)) := by
      unfold occupied; rw [hp]; exact hnn
    refine ⟨hocc, occupiedCount_gain s _ _ h5 h1 h3 hocc h7, ?_⟩
    intro L ops
    obtain ⟨hN, hkeep⟩ := runOps_keeps_handle L ops (sch_add_task pTask DELAY PERIOD s).2
      (scanGap s 0) (by rw [h5]; exact h1) hocc
    refine ⟨by rw [hkeep, hp], ?_⟩
    intro heq
    obtain ⟨_, _, hfree⟩ := scanGap_zero (runOps L ops (sch_add_task pTask DELAY PERIOD s).2)
    rw [heq, hN, h5] at hfree
    apply hfree h1
    unfold occupied
    rw [hkeep, hp]
    exact hnn
  · intro hnull
    have hfree : ¬ occupied
        (readSlot (sch_add_task pTask DELAY PERIOD s).2 (scanGap s 0)) := by
      unfold occupied; rw [hp]; exact fun h => h hnull
    refine ⟨hfree, ?_, ?_⟩
    · apply occupiedCount_same _ _ h5
      intro j
      by_cases hj : j = scanGap s 0
      · subst hj
        exact ⟨fun h => absurd h hfree, fun h => absurd h h3⟩
      · rw [h7 j hj]
    · apply scanGap_eq_of_first_free _ _ (by rw [h5]; exact h1) hfree
      intro j hj
      rw [h7 j (by omega)]
      exact h4 j hj

theorem sch_add_task_occupies_slot_witness :
    (sch_add_task 7 2 3 tbl3).1 = EXIT_SUCCESS ∧
    ∃ k, k < SCH_MAX_TASKS tbl3 ∧ ¬ occupied (readSlot tbl3 k) ∧
      occupied (readSlot (sch_add_task 7 2 3 tbl3).2 k) ∧
      occupiedCount (sch_add_task 7 2 3 tbl3).2 = occupiedCount tbl3 + 1 :=
  have h : (sch_add_task 7 2 3 tbl3).1 = EXIT_SUCCESS := by
    simp [sch_add_task, scanGap, readSlot, tbl3, SCH_NULL_PTR, SCH_MAX_TASKS]
  ⟨h, (sch_add_task_occupies_slot 7 2 3 tbl3 h).imp
    (fun _ hk => ⟨hk.1, hk.2.1, (hk.2.2.2.2.1 (by decide)).1,
      (hk.2.2.2.2.1 (by decide)).2.1⟩)⟩

/-- C18, the code at the failing input. On a table of two slots that are
both occupied the free-slot scan reads the indices 0, 1 and 2, and 2 is
`SCH_MAX_TASKS`: a read past the end of the array. In general the scan reads
index `SCH_MAX_TASKS` exactly when the table is full, and never reads beyond
that index. -/
theorem scanGap_reads_past_the_array :
    (tableFull full2 ∧ SCH_MAX_TASKS full2 = 2 ∧ scanGapReads full2 0 = [0, 1, 2] ∧
      ¬ (∀ r, r ∈ scanGapReads full2 0 → r < SCH_MAX_TASKS full2)) ∧
    (∀ s : Sched, SCH_MAX_TASKS s ∈ scanGapReads s 0 ↔ tableFull s) ∧
    (∀ (s : Sched) (r : Nat), r ∈ scanGapReads s 0 → r ≤ SCH_MAX_TASKS s) := by
  have hfull : tableFull full2 := by
    intro i hi
    have hi2 : i < 2 := hi
    interval_cases i <;> decide
  have hscan : scanGap full2 0 = 2 := (scanGap_eq_max_iff full2).2 hfull
  have hreads : scanGapReads full2 0 = [0, 1, 2] := by
    rw [scanGapReads_eq full2 _ 0 rfl, hscan]
    rfl
  refine ⟨⟨hfull, rfl, hreads, ?_⟩, ?_, ?_⟩
  · intro h
    have := h 2 (by rw [hreads]; decide)
    exact absurd this (by decide)
  · intro s
    rw [mem_scanGapReads, ← scanGap_eq_max_iff]
    have := (scanGap_zero s).1
    constructor
    · intro h; omega
    · intro h; omega
  · intro s r hr
    rw [mem_scanGapReads] at hr
    have := (scanGap_zero s).1
    omega

/-! ## The tick interrupt interleaved with the dispatcher -/

/-- C17, amended. In every execution in which tick interrupts interleave
with the steps of the main thread, which starts outside the dispatcher with
the tick counter at 0, and in which the counter never wraps around (every
tick interrupt finds it below `2 ^ 32 - 1`): the counter always holds the
number of increments minus the number of decrements, so whenever it is 0 again
the dispatcher has made exactly as many decrements as the handler has made
increments. -/
theorem ticks_conserved_without_wrap (SCH_TICK_COUNT_LIMIT : Nat) (s : Sched)
    (es : List Event) (h0 : s.tick_count_g = 0)
    (hw : noWrap SCH_TICK_COUNT_LIMIT es (Machine.boot s) = true) :
    (runEvents SCH_TICK_COUNT_LIMIT es (Machine.boot s)).s.tick_count_g
        + (runEvents SCH_TICK_COUNT_LIMIT es (Machine.boot s)).decs
      = (runEvents SCH_TICK_COUNT_LIMIT es (Machine.boot s)).incs ∧
    ((runEvents SCH_TICK_COUNT_LIMIT es (Machine.boot s)).s.tick_count_g = 0 →
      (runEvents SCH_TICK_COUNT_LIMIT es (Machine.boot s)).decs
        = (runEvents SCH_TICK_COUNT_LIMIT es (Machine.boot s)).incs) := by
  have hstart : conserved (Machine.boot s) := by
    refine ⟨?_, ?_, fun i hi => by cases hi⟩
    · show s.tick_count_g + 0 = 0
      omega
    · show s.tick_count_g < 2 ^ 32
      omega
  obtain ⟨h1, _, _⟩ := conserved_run SCH_TICK_COUNT_LIMIT es (Machine.boot s) hstart hw
  exact ⟨h1, fun hz => by omega⟩

theorem ticks_conserved_without_wrap_witness :
    (full2.tick_count_g = 0 ∧ noWrap 10 fewEvents (Machine.boot full2) = true) ∧
    (runEvents 10 fewEvents (Machine.boot full2)).s.tick_count_g
        + (runEvents 10 fewEvents (Machine.boot full2)).decs
      = (runEvents 10 fewEvents (Machine.boot full2)).incs :=
  have h0 : full2.tick_count_g = 0 := rfl
  have hw : noWrap 10 fewEvents (Machine.boot full2) = true := by decide
  ⟨⟨h0, hw⟩, (ticks_conserved_without_wrap 10 full2 fewEvents h0 hw).1⟩

/-- C12. In every sequence of tick interrupts and steps of the main thread
(which calls `sch_dispatch_tasks` again and again) that follows `sch_start`,
the overrun latch is set at the end if and only if at some point of the
sequence the tick counter was greater than `SCH_TICK_COUNT_LIMIT`. Once the
latch is set, it stays set through all later events and every later return of
`sch_dispatch_tasks` gives 1; called as a whole on a state with the latch
set, `sch_tick_handler` leaves it set and `sch_dispatch_tasks` returns 1 and
leaves it set. -/
theorem overrun_latch_history (SCH_TICK_COUNT_LIMIT : Nat) (s : Sched) (es : List Event) :
    ((runEvents SCH_TICK_COUNT_LIMIT es
          (Machine.boot (sch_start s))).s.scheduler_overrun_flag = true ↔
      ∃ k, k ≤ es.length ∧
        (runEvents SCH_TICK_COUNT_LIMIT (es.take k)
          (Machine.boot (sch_start s))).s.tick_count_g > SCH_TICK_COUNT_LIMIT) ∧
    (∀ (m : Machine) (later : List Event), m.s.scheduler_overrun_flag = true →
      (runEvents SCH_TICK_COUNT_LIMIT later m).s.scheduler_overrun_flag = true ∧
      ∃ l, (runEvents SCH_TICK_COUNT_LIMIT later m).rets = m.rets ++ l ∧
        ∀ r, r ∈ l → r = 1) ∧
    (∀ s1 : Sched, s1.scheduler_overrun_flag = true →
      (sch_tick_handler SCH_TICK_COUNT_LIMIT s1).scheduler_overrun_flag = true ∧
      (sch_dispatch_tasks s1).1 = 1 ∧
      (sch_dispatch_tasks s1).2.scheduler_overrun_flag = true) := by
  have hstart : latched SCH_TICK_COUNT_LIMIT (Machine.boot (sch_start s)) := by
    refine ⟨?_, ?_, fun i hi => by cases hi⟩
    · show (0 : Nat) < 2 ^ 32
      norm_num
    · intro h
      have h' : (0 : Nat) > SCH_TICK_COUNT_LIMIT := h
      omega
  refine ⟨⟨?_, ?_⟩, ?_, ?_⟩
  · intro hf
    rcases latch_origin SCH_TICK_COUNT_LIMIT es _ hf with h | h
    · have h' : false = true := h
      cases h'
    · exact h
  · rintro ⟨k, _, hgt⟩
    have hinv := latched_run SCH_TICK_COUNT_LIMIT (es.take k) _ hstart
    have hflag := hinv.2.1 hgt
    have hsplit : es = es.take k ++ es.drop k := (List.take_append_drop k es).symm
    rw [hsplit, runEvents_append]
    exact (latch_sticky SCH_TICK_COUNT_LIMIT (es.drop k) _ hflag).1
  · intro m later hm
    exact latch_sticky SCH_TICK_COUNT_LIMIT later m hm
  · intro s1 h1
    obtain ⟨n, x, hn⟩ := dispatchWhile_passes _ s1 rfl
    have hflag : (dispatchWhile s1).scheduler_overrun_flag = true := by
      rw [hn]
      show (dispatchPass^[n] s1).scheduler_overrun_flag = true
      rw [iterate_pass_flag]; exact h1
    refine ⟨(tick_handler_flag SCH_TICK_COUNT_LIMIT s1).2 (Or.inl h1), ?_, hflag⟩
    show (if (dispatchWhile s1).scheduler_overrun_flag = true then (1 : Int) else 0) = 1
    rw [if_pos hflag]

/-- C17, counterexample. One tick, the entry of the dispatcher, `2 ^ 32`
ticks while the dispatcher is in its loop, and the rest of the dispatcher
call: the counter is 0 at the start and at the end, the handler has made
`2 ^ 32 + 1` increments and the dispatcher one decrement. -/
theorem ticks_lost_on_wrap :
    (Machine.boot (sch_start full2)).s.tick_count_g = 0 ∧
    (runEvents 10 wrapEvents (Machine.boot (sch_start full2))).s.tick_count_g = 0 ∧
    (runEvents 10 wrapEvents (Machine.boot (sch_start full2))).incs = 2 ^ 32 + 1 ∧
    (runEvents 10 wrapEvents (Machine.boot (sch_start full2))).decs = 1 ∧
    (runEvents 10 wrapEvents (Machine.boot (sch_start full2))).pc = Pc.idle := by
  have h1 : runEvents 10 [Event.irq, Event.main] (Machine.boot (sch_start full2))
      = ⟨⟨[⟨5, 3, 4⟩, ⟨6, 1, 2⟩], 1, false, ⟨0, 0, 0⟩, []⟩, Pc.body 0, 1, 0, []⟩ := by
    decide
  obtain ⟨b, hb⟩ := tick_handler_iterate_mod 10 (2 ^ 32)
    ⟨[⟨5, 3, 4⟩, ⟨6, 1, 2⟩], 1, false, ⟨0, 0, 0⟩, []⟩ (by norm_num)
  have hm : (1 + 2 ^ 32) % 2 ^ 32 = 1 := by norm_num
  simp only [hm] at hb
  have h2 : runEvents 10 wrapEvents (Machine.boot (sch_start full2))
      = runEvents 10 [Event.main, Event.main, Event.main, Event.main]
          ⟨⟨[⟨5, 3, 4⟩, ⟨6, 1, 2⟩], 1, b, ⟨0, 0, 0⟩, []⟩, Pc.body 0, 1 + 2 ^ 32, 0, []⟩ := by
    unfold wrapEvents
    rw [runEvents_append, runEvents_append, h1, runEvents_irqs, hb]
  have h3 : runEvents 10 [Event.main, Event.main, Event.main, Event.main]
          ⟨⟨[⟨5, 3, 4⟩, ⟨6, 1, 2⟩], 1, b, ⟨0, 0, 0⟩, []⟩, Pc.body 0, 1 + 2 ^ 32, 0, []⟩
      = ⟨⟨[⟨5, 2, 4⟩, ⟨6, 2, 2⟩], 0, b, ⟨0, 0, 0⟩, [(1, 6)]⟩, Pc.idle, 1 + 2 ^ 32, 1,
          [if b = true then 1 else 0]⟩ := by
    cases b <;> decide
  rw [h2, h3]
  refine ⟨rfl, rfl, ?_, rfl, rfl⟩
  show 1 + 2 ^ 32 = 2 ^ 32 + 1
  norm_num

end UAVWare
